import Mathlib

/-!
Verification of the SMAA demo renderer core (handle registry, ring-buffer
allocator, shader cache, frame state machine) against its natural-language
specification.  The definitions below are shallow embeddings of the C++
source (`renderer/RendererCommon.cpp` and the OpenGL backend translation
unit); C/C++ `unsigned int` arithmetic is modelled on `Nat` with explicit
reduction modulo `2^32` wherever the source computation can wrap.
`assert` statements of the state-machine operations are modelled as guards:
an operation returns `none` exactly when one of its assertions would fire.
-/

namespace renderer

/-! ## Ring buffer allocator

State of the ring-buffer sub-allocator, the fields of `RendererImpl` read
and written by `RendererImpl::ringBufferAllocate`
(`renderer/RendererCommon.cpp` lines 797-844).  All three fields are C
`unsigned int` values, kept below `2^32`.
-/

/-- Modulus of C `unsigned int` arithmetic. -/
def U32 : Nat := 4294967296

structure RingState where
  ringBufSize : Nat
  ringBufPtr : Nat
  lastSyncedRingBufPtr : Nat
deriving DecidableEq, Repr

/-- Halving recursion for `nextPow2`, fuelled so that it is structurally
recursive (the fuel argument strictly decreases; `fuel = n` is always
enough since `(n + 1) / 2 < n` for `n ≥ 2`). -/
def nextPow2Aux : Nat → Nat → Nat
  | 0, _ => 1
  | fuel + 1, n => if n ≤ 1 then 1 else 2 * nextPow2Aux fuel ((n + 1) / 2)

/-- Modelled from the spec: `nextPow2` lives in the repository's `utils/Utils.h`,
which is not part of the provided sources.  The spec (§4.2) describes the grown
capacity as "the next power of two ≥ size", so `nextPow2 n` is the least power
of two that is at least `n`. -/
def nextPow2 (n : Nat) : Nat := nextPow2Aux n n

/-- Modelled from the spec: `RendererImpl::recreateRingBuffer` is not part of
the provided sources.  The spec (§4.2) says the buffer is reallocated at the
new size with the cursor reset to 0, and the call sites assert
`ringBufPtr == 0` immediately after it returns; a freshly allocated buffer has
no unconsumed GPU data, so the synchronization mark is reset as well. -/
def recreateRingBuffer (newSize : Nat) : RingState :=
  { ringBufSize := newSize, ringBufPtr := 0, lastSyncedRingBufPtr := 0 }

/-- Rounding of a cursor up to an alignment exactly as the source does it in
32-bit `unsigned int` arithmetic: `add = alignment - 1`, `mask = ~add`,
result `(p + add) & mask` (`&` is `Nat.land`, `~add` at width 32 is
`(U32 - 1) - add`). -/
def alignUp32 (p alignment : Nat) : Nat :=
  let add := (alignment + (U32 - 1)) % U32
  let mask := (U32 - 1) - add
  ((p + add) % U32) &&& mask

/-- Shallow embedding of `RendererImpl::ringBufferAllocate(size, alignment)`
(`renderer/RendererCommon.cpp` lines 797-844), with `assert`s erased (NDEBUG
semantics) and each `unsigned int` operation reduced mod `2^32` where it can
wrap.  Returns the sub-allocation offset and the updated allocator state. -/
def ringBufferAllocate (rs : RingState) (size alignment : Nat) : Nat × RingState :=
  let rs0 := if size > rs.ringBufSize then recreateRingBuffer (nextPow2 size) else rs
  let alignedPtr0 := alignUp32 rs0.ringBufPtr alignment
  let alignedPtr :=
    if (alignedPtr0 % rs0.ringBufSize + size) % U32 ≥ rs0.ringBufSize then
      alignUp32 (((rs0.ringBufPtr / rs0.ringBufSize + 1) * rs0.ringBufSize) % U32) alignment
    else alignedPtr0
  if (alignedPtr + size) % U32 ≥ (rs0.lastSyncedRingBufPtr + rs0.ringBufSize) % U32 then
    (0, { recreateRingBuffer ((rs0.ringBufSize * 2) % U32) with ringBufPtr := size })
  else
    (alignedPtr % rs0.ringBufSize, { rs0 with ringBufPtr := (alignedPtr + size) % U32 })

/-- Runs a sequence of `ringBufferAllocate` calls.  Each request is a pair
`(size, k)` asking for `size` bytes at alignment `2^k`; the runner checks the
side conditions of the spec's ring-buffer property at every call (`size` at
most the current capacity, the alignment a nonzero 32-bit power of two) plus
the 32-bit safety bound `capacity ≤ 2^30`, and returns `none` if any call
violates them.  On success it returns, per call, the offset handed out and the
capacity immediately after that call. -/
def allocRunChecked (rs : RingState) : List (Nat × Nat) → Option (List (Nat × Nat))
  | [] => some []
  | (size, k) :: rest =>
    if size ≤ rs.ringBufSize ∧ rs.ringBufSize ≤ 2 ^ 30 ∧ k ≤ 31 then
      let r := ringBufferAllocate rs size (2 ^ k)
      (allocRunChecked r.2 rest).map (fun outs => (r.1, r.2.ringBufSize) :: outs)
    else none

/-! ## Shader cache records

`CacheData` from `renderer/RendererCommon.cpp` lines 348-417.  C++ strings are
modelled as `List Char`. -/

/-- The compiler version constant (`renderer/RendererCommon.cpp` line 345). -/
def shaderVersion : Nat := 20

structure CacheData where
  version : Nat
  hash : Nat
  dependencies : List (List Char)
deriving DecidableEq, Repr

/-- Digit character for a value below 16, lowercase as produced by the C++
decimal and `std::hex` stream output. -/
def digitChar (d : Nat) : Char :=
  match d with
  | 0 => '0' | 1 => '1' | 2 => '2' | 3 => '3' | 4 => '4'
  | 5 => '5' | 6 => '6' | 7 => '7' | 8 => '8' | 9 => '9'
  | 10 => 'a' | 11 => 'b' | 12 => 'c' | 13 => 'd' | 14 => 'e' | 15 => 'f'
  | _ => '?'

/-- Fuelled most-significant-first digit expansion; `fuel = n` always
suffices. -/
def natDigitsAux (base : Nat) : Nat → Nat → List Char → List Char
  | 0, _, acc => acc
  | _ + 1, 0, acc => acc
  | fuel + 1, n + 1, acc =>
    natDigitsAux base fuel ((n + 1) / base) (digitChar ((n + 1) % base) :: acc)

/-- Decimal rendering of an unsigned value, as `operator<<(unsigned)`. -/
def natToDec (n : Nat) : List Char :=
  if n = 0 then ['0'] else natDigitsAux 10 n n []

/-- Lowercase hexadecimal rendering of an unsigned value, as
`operator<<` under `std::hex` (no padding, no `0x`). -/
def natToHex (n : Nat) : List Char :=
  if n = 0 then ['0'] else natDigitsAux 16 n n []

def isDecDigit (c : Char) : Bool := 48 ≤ c.toNat && c.toNat ≤ 57

def isHexDigit (c : Char) : Bool :=
  isDecDigit c || (97 ≤ c.toNat && c.toNat ≤ 102) || (65 ≤ c.toNat && c.toNat ≤ 70)

def hexDigitVal (c : Char) : Nat :=
  if isDecDigit c then c.toNat - 48
  else if 97 ≤ c.toNat then c.toNat - 87
  else c.toNat - 55

def decValAux : List Char → Nat → Nat
  | [], acc => acc
  | c :: cs, acc => if isDecDigit c then decValAux cs (acc * 10 + (c.toNat - 48)) else acc

/-- Model of C `atoi` on the strings at play: the value of the longest leading
run of decimal digits (0 when there is none).  Leading whitespace and sign,
which no cache record ever contains, are not modelled. -/
def atoiM (s : List Char) : Nat := decValAux s 0

def hexValAux : List Char → Nat → Nat
  | [], acc => acc
  | c :: cs, acc => if isHexDigit c then hexValAux cs (acc * 16 + hexDigitVal c) else acc

/-- Model of `std::stoull(s, nullptr, 16)` on the strings at play: `none` when
the string does not start with a hexadecimal digit (`std::invalid_argument`)
or the value of the leading digit run exceeds the `unsigned long long` range
(`std::out_of_range`); otherwise that value.  The optional `0x` prefix,
leading whitespace and sign, which no cache record ever contains, are not
modelled. -/
def stoull16 (s : List Char) : Option Nat :=
  match s with
  | [] => none
  | c :: _ =>
    if isHexDigit c then
      let v := hexValAux s 0
      if v < 2 ^ 64 then some v else none
    else none

/-- Shallow embedding of `CacheData::parse` (`renderer/RendererCommon.cpp`
lines 369-402): split the record on commas (`boost::algorithm::split` keeps
empty components, as does `List.splitOn`); fewer than two components is a
parse failure (default record); a version other than `shaderVersion` stops
parsing with only the version filled in; a failed hash parse resets the
version to 0; otherwise the remaining components are the dependencies. -/
def CacheData.parse (cacheStr : List Char) : CacheData :=
  match cacheStr.splitOn ',' with
  | s0 :: s1 :: rest =>
    let version := atoiM s0
    if version ≠ shaderVersion then { version := version, hash := 0, dependencies := [] }
    else
      match stoull16 s1 with
      | none => { version := 0, hash := 0, dependencies := [] }
      | some h => { version := version, hash := h, dependencies := rest }
  | _ => { version := 0, hash := 0, dependencies := [] }

/-- Shallow embedding of `CacheData::serialize` (`renderer/RendererCommon.cpp`
lines 405-416): decimal version, a comma, the hash in lowercase hex, then each
dependency preceded by a comma. -/
def CacheData.serialize (cd : CacheData) : List Char :=
  natToDec cd.version ++ [','] ++ natToHex cd.hash
    ++ (cd.dependencies.map (fun f => ',' :: f)).flatten

/-! ## Cached SPIR-V lookup

`RendererBase::loadCachedSPV` (`renderer/RendererCommon.cpp` lines 420-467).
The filesystem is the external environment: a `FileSys` gives each path its
contents (or `none` when the file does not exist — `fileExists`/`readFile`)
and its modification time (`getFileTimestamp`). -/

structure FileSys where
  contents : String → Option (List Char)
  mtime : String → Int

/-- The binary's on-disk name: `snprintf(buffer, 9, "%08llx", hash)` zero-pads
the lowercase hex expansion to at least 8 digits and the 9-byte buffer
truncates it to its first 8 characters. -/
def hex8 (h : Nat) : String :=
  let s := natToHex h
  String.mk ((List.replicate (8 - s.length) '0' ++ s).take 8)

/-- Shallow embedding of `RendererBase::loadCachedSPV` restricted to its
decision value: `true` exactly when the lookup is a cache hit.  The final
`memcpy` into the output vector carries no decision and is not modelled. -/
def loadCachedSPV (fs : FileSys) (spirvCacheDir name shaderName : String) : Bool :=
  let cacheName := spirvCacheDir ++ shaderName ++ ".cache"
  match fs.contents cacheName with
  | none => false
  | some cacheStr =>
    let cacheData := CacheData.parse cacheStr
    if cacheData.version ≠ shaderVersion then false
    else
      let spvName := spirvCacheDir ++ hex8 cacheData.hash ++ ".spv"
      match fs.contents spvName with
      | none => false
      | some temp =>
        let sourceTime := fs.mtime name
        let cacheTime := fs.mtime cacheName
        if sourceTime > cacheTime then false
        else if cacheData.dependencies.any
            (fun filename => fs.mtime (String.mk filename) > cacheTime) then false
        else if temp.length % 4 ≠ 0 then false
        else true

/-! ## Shader name disambiguation by macro set

`RendererBase::compileSpirv` (`renderer/RendererCommon.cpp` lines 470-489)
builds the cache key for a shader variant: the source name with `"_" + s`
appended for each macro serialization `s` (`NAME` or `NAME=VALUE`), in sorted
order.  `ShaderMacros` is an ordered name-to-optional-value mapping (spec
§4.3); it is modelled as its list of `(name, value)` entries, the empty value
standing for "no value". -/

/-- Serialization of one macro exactly as the loop body builds `s`. -/
def serializeMacro (m : List Char × List Char) : List Char :=
  if m.2 = [] then m.1 else m.1 ++ '=' :: m.2

/-- Lexicographic `operator<=` of `std::string`, as a boolean. -/
def strLe : List Char → List Char → Bool
  | [], _ => true
  | _ :: _, [] => false
  | a :: as, b :: bs => if a < b then true else if b < a then false else strLe as bs

/-- Ordered insertion into an ascending list. -/
def insertSorted (s : List Char) : List (List Char) → List (List Char)
  | [] => [s]
  | t :: ts => if strLe s t then s :: t :: ts else t :: insertSorted s ts

/-- Model of `std::sort` with `std::string`'s `operator<`: an ascending
sort.  Insertion sort is used so the definition is structurally recursive;
because list elements that compare equal are identical strings, every
comparison sort produces this same output list. -/
def sortStrings : List (List Char) → List (List Char)
  | [] => []
  | s :: ss => insertSorted s (sortStrings ss)

/-- The disambiguated shader name: source name, then each sorted macro
serialization preceded by an underscore. -/
def shaderNameWithMacros (name : List Char) (macros : List (List Char × List Char)) : List Char :=
  let sorted := sortStrings (macros.map serializeMacro)
  sorted.foldl (fun acc s => acc ++ '_' :: s) name

/-- Macros on which the disambiguation scheme is collision-free: nonempty
name, no underscore or equals sign in the name, no underscore in the value. -/
def goodMacro (m : List Char × List Char) : Prop :=
  m.1 ≠ [] ∧ ('_' : Char) ∉ m.1 ∧ ('=' : Char) ∉ m.1 ∧ ('_' : Char) ∉ m.2

instance (m : List Char × List Char) : Decidable (goodMacro m) := by
  unfold goodMacro
  infer_instance

/-! ## Frame state machine (OpenGL backend translation unit)

The resource registries, resource records and renderer operations of
`RendererImpl` as read off the OpenGL backend source.  GL object names
(buffers, textures, framebuffer and program ids) are `Nat`s; `0` is the null
GL name, and fresh names are drawn from a `nextGLName` counter.  Handles are
`Nat`s with `0` the null handle.  Each `assert` is a guard: an operation
returns `none` exactly when an assertion would fire. -/

/-- Modelled from the spec: the `ResourceContainer` template is repository
code not under `src/`.  Spec §4.1: a registry maps opaque handles to resource
records, with `add` returning a fresh record and handle, `get` failing with
`InvalidHandle` (assertion-class) on an absent handle, and `remove`/
`removeWith` releasing the slot.  Handles start at 1 so that 0 is the null
handle. -/
structure Registry (α : Type) where
  entries : List (Nat × α)
  next : Nat
deriving DecidableEq, Repr

def Registry.empty {α : Type} : Registry α := ⟨[], 1⟩

def Registry.add {α : Type} (r : Registry α) (x : α) : Nat × Registry α :=
  (r.next, ⟨(r.next, x) :: r.entries, r.next + 1⟩)

def Registry.get {α : Type} (r : Registry α) (h : Nat) : Option α :=
  (r.entries.find? (fun e => e.1 == h)).map (fun e => e.2)

def Registry.set {α : Type} (r : Registry α) (h : Nat) (x : α) : Registry α :=
  ⟨r.entries.map (fun e => if e.1 == h then (h, x) else e), r.next⟩

def Registry.remove {α : Type} (r : Registry α) (h : Nat) : Registry α :=
  ⟨r.entries.filter (fun e => !(e.1 == h)), r.next⟩

inductive Layout where
  | Undefined | ShaderRead | TransferSrc | TransferDst | ColorAttachment
deriving DecidableEq, Repr, Inhabited

inductive DescriptorType where
  | End | UniformBuffer | StorageBuffer | Sampler | Texture | CombinedSampler | Count
deriving DecidableEq, Repr, Inhabited

inductive Format where
  | Invalid | R8 | RG8 | RGB8 | RGBA8 | sRGBA8
  | RG16Float | RGBA16Float | RGBA32Float
  | Depth16 | Depth16S8 | Depth24S8 | Depth24X8 | Depth32Float
deriving DecidableEq, Repr, Inhabited

/-- The OpenGL `Buffer` record: GL buffer name, whether it is a ring-buffer
sub-allocation, its begin offset, and its byte size. -/
structure Buffer where
  buffer : Nat
  ringBufferAlloc : Bool
  beginOffs : Nat
  size : Nat
deriving DecidableEq, Repr, Inhabited

structure Texture where
  tex : Nat
  width : Nat
  height : Nat
  renderTarget : Bool
deriving DecidableEq, Repr, Inhabited

/-- The OpenGL `RenderTarget` record; `texture` is a handle into the texture
registry and `readFBO` is the lazily created presentation framebuffer (0 when
not yet created). -/
structure RenderTarget where
  width : Nat
  height : Nat
  format : Format
  texture : Nat
  currentLayout : Layout
  readFBO : Nat
deriving DecidableEq, Repr, Inhabited

structure DescriptorLayout where
  type : DescriptorType
  offset : Nat
deriving DecidableEq, Repr, Inhabited

structure DescriptorSetLayout where
  layout : List DescriptorLayout
deriving DecidableEq, Repr, Inhabited

/-- Reflection record extracted from a compiled shader. -/
structure ShaderResource where
  set : Nat
  binding : Nat
  type : DescriptorType
deriving DecidableEq, Repr, Inhabited

structure VertexShader where
  shader : Nat
  name : String
  resources : List ShaderResource
deriving DecidableEq, Repr, Inhabited

structure FragmentShader where
  shader : Nat
  name : String
  resources : List ShaderResource
deriving DecidableEq, Repr, Inhabited

/-- The pipeline descriptor fields the modelled operations read.
`descriptorSetLayouts` is the handle array of length `MAX_DESCRIPTOR_SETS`
(0 for an empty slot); `name` is `none` for a null `name_` pointer. -/
structure PipelineDesc where
  vertexShader : Nat
  fragmentShader : Nat
  renderPass : Nat
  name : Option String
  descriptorSetLayouts : List Nat
  depthWrite : Bool
  depthTest : Bool
  cullFaces : Bool
  scissorTest : Bool
  blending : Bool
  vertexAttribMask : Nat
deriving DecidableEq, Repr, Inhabited

structure Pipeline where
  desc : PipelineDesc
  shader : Nat
deriving DecidableEq, Repr, Inhabited

/-- The render pass descriptor fields the modelled operations read. -/
structure RenderPassDesc where
  name : Option String
  colorFormat0 : Format
  depthStencilFormat : Format
  colorFinalLayout : Layout
deriving DecidableEq, Repr, Inhabited

structure RenderPass where
  desc : RenderPassDesc
deriving DecidableEq, Repr, Inhabited

structure Framebuffer where
  fbo : Nat
  renderPass : Nat
  color0 : Nat
  depthStencil : Nat
  width : Nat
  height : Nat
deriving DecidableEq, Repr, Inhabited

/-- The `RendererImpl` state the modelled operations read and write. -/
structure RState where
  swapchainWidth : Nat
  swapchainHeight : Nat
  ringBuffer : Nat
  ring : RingState
  uboAlign : Nat
  ssboAlign : Nat
  inFrame : Bool
  inRenderPass : Bool
  validPipeline : Bool
  pipelineDrawn : Bool
  scissorSet : Bool
  buffers : Registry Buffer
  textures : Registry Texture
  renderTargets : Registry RenderTarget
  renderPasses : Registry RenderPass
  framebuffers : Registry Framebuffer
  pipelines : Registry Pipeline
  dsLayouts : Registry DescriptorSetLayout
  vertexShaders : Registry VertexShader
  fragmentShaders : Registry FragmentShader
  ephemeralBuffers : List Nat
  currentRenderPass : Nat
  currentFramebuffer : Nat
  currentPipeline : PipelineDesc
  nextGLName : Nat
deriving DecidableEq, Repr

/-- `RendererImpl::beginFrame`: requires not already in a frame; resets the
per-frame flags (`pipelineDrawn` starts `true` so the first `bindPipeline` of
the frame is permitted). -/
def beginFrame (st : RState) : Option RState := do
  guard (!st.inFrame)
  some { st with
    inFrame := true, inRenderPass := false,
    validPipeline := false, pipelineDrawn := true }

/-- The ephemeral-buffer release loop at the end of
`RendererImpl::presentFrame`: each listed handle must resolve to a live
ring-buffer sub-allocation of the shared ring buffer with nonzero size, and is
then removed from the buffer registry. -/
def releaseEphemeral (ring : Nat) : Registry Buffer → List Nat → Option (Registry Buffer)
  | bufs, [] => some bufs
  | bufs, h :: t => do
    let b ← bufs.get h
    guard (b.buffer = ring)
    guard b.ringBufferAlloc
    guard (b.size > 0)
    releaseEphemeral ring (bufs.remove h) t

/-- `RendererImpl::presentFrame` (OpenGL backend, lines 1115-1165): requires
`inFrame`; the target must resolve and already be in `TransferSrc` layout and
match the swapchain extent; a read-framebuffer is created lazily from the
target's backing texture; the blit and buffer swap are GL calls with no
modelled state; finally every ephemeral buffer is released and the list
cleared. -/
def presentFrame (st : RState) (image : Nat) : Option RState := do
  guard st.inFrame
  let st1 := { st with inFrame := false }
  let rt ← st1.renderTargets.get image
  guard (rt.currentLayout = Layout.TransferSrc)
  guard (rt.width = st1.swapchainWidth)
  guard (rt.height = st1.swapchainHeight)
  guard (rt.width > 0)
  guard (rt.height > 0)
  let st2 ←
    if rt.readFBO = 0 then do
      let colorTex ← st1.textures.get rt.texture
      guard colorTex.renderTarget
      guard (colorTex.tex ≠ 0)
      some { st1 with
        renderTargets := st1.renderTargets.set image { rt with readFBO := st1.nextGLName },
        nextGLName := st1.nextGLName + 1 }
    else some st1
  let bufs ← releaseEphemeral st2.ringBuffer st2.buffers st2.ephemeralBuffers
  some { st2 with buffers := bufs, ephemeralBuffers := [] }

/-- `RendererImpl::createEphemeralBuffer` (OpenGL backend, lines 529-553):
requires a nonzero size; sub-allocates from the ring buffer at the UBO/SSBO
alignment, records a ring-buffer `Buffer` pointing at the shared ring buffer,
and appends the new handle to the ephemeral list.  The `memcpy` of the
caller's bytes is data-plane work with no modelled state; the spec-modelled
ring-buffer reallocation is treated as resizing the shared buffer in place. -/
def createEphemeralBuffer (st : RState) (size : Nat) : Option (Nat × RState) := do
  guard (size ≠ 0)
  let r := ringBufferAllocate st.ring size (max st.uboAlign st.ssboAlign)
  let hb := st.buffers.add
    { buffer := st.ringBuffer, ringBufferAlloc := true, beginOffs := r.1, size := size }
  some (hb.1, { st with
    ring := r.2, buffers := hb.2,
    ephemeralBuffers := st.ephemeralBuffers ++ [hb.1] })

/-- `RendererImpl::deleteBuffer` (OpenGL backend, lines 987-998):
`removeWith` resolves the handle and runs the cleanup closure, which asserts
a live GL buffer, a nonzero size, and — after releasing them — that the
buffer is not a ring-buffer sub-allocation. -/
def deleteBuffer (st : RState) (h : Nat) : Option RState := do
  let b ← st.buffers.get h
  guard (b.buffer ≠ 0)
  guard (b.size ≠ 0)
  guard (!b.ringBufferAlloc)
  some { st with buffers := st.buffers.remove h }

/-- `RendererImpl::bindPipeline` (OpenGL backend, lines 1234-1372): requires
being inside a render pass of a frame, a non-null pipeline handle, and that
the previously bound pipeline has drawn (`pipelineDrawn`); the pipeline's
declared render pass must be the active one.  The fixed-function and
vertex-attribute GL calls carry no modelled state beyond `currentPipeline`. -/
def bindPipeline (st : RState) (pipeline : Nat) : Option RState := do
  guard st.inFrame
  guard (pipeline ≠ 0)
  guard st.inRenderPass
  guard st.pipelineDrawn
  let p ← st.pipelines.get pipeline
  guard (p.desc.renderPass = st.currentRenderPass)
  some { st with
    pipelineDrawn := false, validPipeline := true, scissorSet := false,
    currentPipeline := p.desc }

/-- `RendererImpl::draw` (OpenGL backend, lines 1496-1506). -/
def draw (st : RState) (_firstVertex vertexCount : Nat) : Option RState := do
  guard st.inRenderPass
  guard st.validPipeline
  guard (vertexCount > 0)
  guard (!st.currentPipeline.scissorTest || st.scissorSet)
  guard (st.currentPipeline.renderPass = st.currentRenderPass)
  some { st with pipelineDrawn := true }

/-- `RendererImpl::drawIndexedInstanced` (OpenGL backend, lines 1509-1526). -/
def drawIndexedInstanced (st : RState) (vertexCount instanceCount : Nat) : Option RState := do
  guard st.inRenderPass
  guard st.validPipeline
  guard (instanceCount > 0)
  guard (vertexCount > 0)
  guard (!st.currentPipeline.scissorTest || st.scissorSet)
  guard (st.currentPipeline.renderPass = st.currentRenderPass)
  some { st with pipelineDrawn := true }

/-- `RendererImpl::drawIndexedOffset` (OpenGL backend, lines 1529-1542). -/
def drawIndexedOffset (st : RState) (vertexCount _firstIndex : Nat) : Option RState := do
  guard st.inRenderPass
  guard st.validPipeline
  guard (vertexCount > 0)
  guard (!st.currentPipeline.scissorTest || st.scissorSet)
  guard (st.currentPipeline.renderPass = st.currentRenderPass)
  some { st with pipelineDrawn := true }

/-- `RendererImpl::createDescriptorSetLayout` (OpenGL backend, lines
963-974): walks the caller's array up to the `End` sentinel, copying entries
into a new registry record; the sentinel's offset must be 0.  An array
without a sentinel would run off the end in C; that is modelled as a
failure. -/
def createDescriptorSetLayout (st : RState) (layout : List DescriptorLayout) :
    Option (Nat × RState) := do
  let entries := layout.takeWhile (fun l => l.type ≠ DescriptorType.End)
  match layout.dropWhile (fun l => l.type ≠ DescriptorType.End) with
  | [] => none
  | sentinel :: _ => do
    guard (sentinel.offset = 0)
    let hd := st.dsLayouts.add ⟨entries⟩
    some (hd.1, { st with dsLayouts := hd.2 })

/-- `checkShaderResources` (OpenGL backend, lines 757-771): every reflected
resource's set index must be within `MAX_DESCRIPTOR_SETS` (the length of the
`layouts` vector — an assertion); a binding at or past the set's layout size,
or one whose type differs from the layout entry at that binding, is logged as
an error and collected here, and the walk continues. -/
def checkShaderResources (resources : List ShaderResource)
    (layouts : List (List DescriptorLayout)) : Option (List ShaderResource) :=
  match resources with
  | [] => some []
  | r :: rest => do
    guard (r.set < layouts.length)
    let errs ← checkShaderResources rest layouts
    let setLayout := layouts.getD r.set []
    if r.binding ≥ setLayout.length then some (r :: errs)
    else if (setLayout.getD r.binding default).type ≠ r.type then some (r :: errs)
    else some errs

/-- `RendererImpl::createPipeline` (OpenGL backend, lines 774-821): validates
the descriptor's handles and name, resolves both shaders, gathers the
declared descriptor-set layouts (an empty layout for a null slot), and
cross-checks both shaders' reflected resources against them — collecting, not
failing on, mismatches.  Program linking is an external GL service; its
success is modelled by drawing a fresh program name.  Returns the new handle
and the collected mismatch errors. -/
def createPipeline (st : RState) (desc : PipelineDesc) :
    Option (Nat × List ShaderResource × RState) := do
  guard (desc.vertexShader ≠ 0)
  guard (desc.fragmentShader ≠ 0)
  guard (desc.renderPass ≠ 0)
  guard desc.name.isSome
  let v ← st.vertexShaders.get desc.vertexShader
  let f ← st.fragmentShaders.get desc.fragmentShader
  let layouts ← desc.descriptorSetLayouts.mapM (fun h =>
    if h = 0 then some [] else (st.dsLayouts.get h).map (fun d => d.layout))
  let errsV ← checkShaderResources v.resources layouts
  let errsF ← checkShaderResources f.resources layouts
  let hp := st.pipelines.add { desc := desc, shader := st.nextGLName }
  some (hp.1, errsV ++ errsF, { st with pipelines := hp.2, nextGLName := st.nextGLName + 1 })

/-- A renderer state as constructed by the `RendererImpl` constructor: empty
registries, no frame in flight, `pipelineDrawn` primed true, a live ring
buffer. -/
def baseState : RState where
  swapchainWidth := 256
  swapchainHeight := 256
  ringBuffer := 1
  ring := ⟨1048576, 0, 0⟩
  uboAlign := 256
  ssboAlign := 32
  inFrame := false
  inRenderPass := false
  validPipeline := false
  pipelineDrawn := true
  scissorSet := false
  buffers := Registry.empty
  textures := Registry.empty
  renderTargets := Registry.empty
  renderPasses := Registry.empty
  framebuffers := Registry.empty
  pipelines := Registry.empty
  dsLayouts := Registry.empty
  vertexShaders := Registry.empty
  fragmentShaders := Registry.empty
  ephemeralBuffers := []
  currentRenderPass := 0
  currentFramebuffer := 0
  currentPipeline := default
  nextGLName := 2

/-- A state mid-frame with one ephemeral buffer outstanding (handle 1, a
16-byte ring-buffer sub-allocation) and a presentable render target (handle 1,
swapchain-sized, already in `TransferSrc` layout, read-framebuffer created). -/
def exSt4 : RState := { baseState with
  inFrame := true
  buffers := ⟨[(1, ⟨1, true, 0, 16⟩)], 2⟩
  renderTargets := ⟨[(1, ⟨256, 256, Format.RGBA8, 7, Layout.TransferSrc, 9⟩)], 2⟩
  ephemeralBuffers := [1] }

/-- The state after presenting `exSt4`. -/
def exSt4res : RState := (presentFrame exSt4 1).getD baseState

/-- The handle and state produced by a 16-byte ephemeral allocation from the
construction-time state. -/
def exStEres : Nat × RState := (createEphemeralBuffer baseState 16).getD (0, baseState)

/-- `exSt4` with a render pass still open: `presentFrame` does not check
`inRenderPass`. -/
def exSt3 : RState := { exSt4 with inRenderPass := true }

/-- `exSt4` with the target still in `ShaderRead` layout. -/
def exSt3bad : RState := { exSt4 with
  renderTargets := ⟨[(1, ⟨256, 256, Format.RGBA8, 7, Layout.ShaderRead, 9⟩)], 2⟩ }

/-- A state inside a render pass (handle 3 active) with pipeline 1 declared
for that pass, ready for `bindPipeline`. -/
def exSt8 : RState := { baseState with
  inFrame := true
  inRenderPass := true
  pipelines := ⟨[(1, ⟨⟨1, 1, 3, some "p", [0], false, false, false, false, false, 0⟩, 5⟩)], 2⟩
  currentRenderPass := 3 }

/-- The state after binding pipeline 1 in `exSt8`. -/
def exSt8res : RState := (bindPipeline exSt8 1).getD baseState

/-- A state with a bound pipeline that has not yet drawn. -/
def exSt8d : RState := { baseState with
  inFrame := true
  inRenderPass := true
  validPipeline := true
  pipelineDrawn := false }

/-- A state with a vertex shader reflecting a `Sampler` at set 0 binding 1, a
fragment shader with no resources, and descriptor-set layout 1 declaring
`{UniformBuffer@0, Texture@8}`. -/
def exSt9 : RState := { baseState with
  vertexShaders := ⟨[(1, ⟨3, "v", [⟨0, 1, DescriptorType.Sampler⟩]⟩)], 2⟩
  fragmentShaders := ⟨[(1, ⟨4, "f", []⟩)], 2⟩
  dsLayouts := ⟨[(1, ⟨[⟨DescriptorType.UniformBuffer, 0⟩, ⟨DescriptorType.Texture, 8⟩]⟩)], 2⟩ }

/-- A pipeline descriptor using those shaders and layout 1 in slot 0. -/
def exDesc9 : PipelineDesc := ⟨1, 1, 5, some "p", [1, 0], false, false, false, false, false, 0⟩

/-- The reflected resources of the spec scenario: a `Sampler` at set 0
binding 1. -/
def exRes9 : List ShaderResource := [⟨0, 1, DescriptorType.Sampler⟩]

/-- The declared layouts of the spec scenario: `{UniformBuffer@0, Texture@8}`
for set 0. -/
def exLayouts9 : List (List DescriptorLayout) :=
  [[⟨DescriptorType.UniformBuffer, 0⟩, ⟨DescriptorType.Texture, 8⟩]]

/-- The mismatches collected for the spec scenario. -/
def exErrs9 : List ShaderResource := (checkShaderResources exRes9 exLayouts9).getD []

/-! ## Theorems -/
theorem nextPow2Aux_congr (n : Nat) : ∀ f1 f2 : Nat, n ≤ f1 → n ≤ f2 →
    nextPow2Aux f1 n = nextPow2Aux f2 n := by
  induction n using Nat.strong_induction_on with
  | _ n ih =>
    intro f1 f2 h1 h2
    match f1, f2 with
    | 0, 0 => rfl
    | 0, g2 + 1 =>
      have hn : n = 0 := by omega
      subst hn
      simp [nextPow2Aux]
    | g1 + 1, 0 =>
      have hn : n = 0 := by omega
      subst hn
      simp [nextPow2Aux]
    | g1 + 1, g2 + 1 =>
      simp only [nextPow2Aux]
      by_cases hle : n ≤ 1
      · rw [if_pos hle, if_pos hle]
      · rw [if_neg hle, if_neg hle]
        have hlt : (n + 1) / 2 < n := by omega
        rw [ih _ hlt g1 g2 (by omega) (by omega)]

theorem nextPow2_unfold (n : Nat) :
    nextPow2 n = if n ≤ 1 then 1 else 2 * nextPow2 ((n + 1) / 2) := by
  by_cases hle : n ≤ 1
  · rw [if_pos hle]
    interval_cases n <;> rfl
  · rw [if_neg hle]
    obtain ⟨m, rfl⟩ : ∃ m, n = m + 2 := ⟨n - 2, by omega⟩
    have hstep : nextPow2Aux (m + 2) (m + 2)
        = if m + 2 ≤ 1 then 1 else 2 * nextPow2Aux (m + 1) ((m + 2 + 1) / 2) := rfl
    rw [show nextPow2 (m + 2) = nextPow2Aux (m + 2) (m + 2) from rfl, hstep,
      if_neg (by omega : ¬ m + 2 ≤ 1),
      nextPow2Aux_congr ((m + 2 + 1) / 2) (m + 1) ((m + 2 + 1) / 2) (by omega) (le_refl _)]
    rfl

/-! ### Arithmetic facts about the 32-bit alignment computation -/

theorem land_high_mask {w : Nat} (x k : Nat) (hx : x < 2 ^ w) (hk : k ≤ w) :
    x &&& (2 ^ w - 2 ^ k) = x / 2 ^ k * 2 ^ k := by
  have hmask : 2 ^ w - 2 ^ k = (2 ^ (w - k) - 1) <<< k := by
    rw [Nat.shiftLeft_eq, Nat.sub_mul, one_mul, ← pow_add]
    congr 2
    omega
  have hdiv : x / 2 ^ k * 2 ^ k = x >>> k <<< k := by
    rw [Nat.shiftRight_eq_div_pow, Nat.shiftLeft_eq]
  apply Nat.eq_of_testBit_eq
  intro i
  rw [Nat.testBit_land, hmask, hdiv, Nat.testBit_shiftLeft, Nat.testBit_shiftLeft,
    Nat.testBit_shiftRight, Nat.testBit_two_pow_sub_one]
  by_cases hik : k ≤ i
  · have hki : k + (i - k) = i := by omega
    rw [hki]
    by_cases hiw : i < w
    · have : i - k < w - k := by omega
      simp [hik, this]
    · have hxi : x.testBit i = false := by
        refine Nat.testBit_lt_two_pow (lt_of_lt_of_le hx ?_)
        exact Nat.pow_le_pow_right (by norm_num) (by omega)
      simp [hxi]
  · simp [hik]

theorem two_pow_32_eq : (2 : Nat) ^ 32 = U32 := by norm_num [U32]

theorem alignUp32_eq_div_mul (p k : Nat) (hk : k ≤ 31) (hp : p + 2 ^ k ≤ U32) :
    alignUp32 p (2 ^ k) = (p + (2 ^ k - 1)) / 2 ^ k * 2 ^ k := by
  have h1 : 1 ≤ (2 : Nat) ^ k := Nat.one_le_two_pow
  have h2 : (2 : Nat) ^ k ≤ 2 ^ 31 := Nat.pow_le_pow_right (by norm_num) hk
  have hU : U32 = 2 ^ 32 := two_pow_32_eq.symm
  have hadd : ((2 : Nat) ^ k + (U32 - 1)) % U32 = 2 ^ k - 1 := by
    rw [hU] at *
    omega
  have hx : p + (2 ^ k - 1) < U32 := by omega
  have hmask : (U32 - 1) - (2 ^ k - 1) = 2 ^ 32 - 2 ^ k := by
    rw [hU] at *
    omega
  unfold alignUp32
  rw [hadd]
  show (p + (2 ^ k - 1)) % U32 &&& (U32 - 1 - (2 ^ k - 1)) = (p + (2 ^ k - 1)) / 2 ^ k * 2 ^ k
  rw [hmask, Nat.mod_eq_of_lt hx, land_high_mask _ k (by omega : p + (2 ^ k - 1) < 2 ^ 32) (by omega)]

theorem le_align_div_mul (x a : Nat) (ha : 0 < a) : x ≤ (x + (a - 1)) / a * a := by
  have hdm := Nat.div_add_mod (x + (a - 1)) a
  have hm := Nat.mod_lt (x + (a - 1)) ha
  have hc : (x + (a - 1)) / a * a = a * ((x + (a - 1)) / a) := Nat.mul_comm _ _
  omega

theorem align_div_mul_le (x a : Nat) : (x + (a - 1)) / a * a ≤ x + (a - 1) :=
  Nat.div_mul_le_self _ _

theorem dvd_align_div_mul (x a : Nat) : a ∣ (x + (a - 1)) / a * a :=
  dvd_mul_left _ _

theorem align_div_mul_of_dvd (x a : Nat) (ha : 0 < a) (h : a ∣ x) :
    (x + (a - 1)) / a * a = x := by
  obtain ⟨m, rfl⟩ := h
  rw [Nat.mul_add_div ha, Nat.div_eq_of_lt (by omega)]
  ring

/-! ### Facts about the spec-modelled `nextPow2` -/

theorem le_nextPow2 (n : Nat) : n ≤ nextPow2 n := by
  induction n using Nat.strong_induction_on with
  | _ n ih =>
    rw [nextPow2_unfold]
    by_cases h : n ≤ 1
    · rw [if_pos h]
      omega
    · rw [if_neg h]
      have hlt : (n + 1) / 2 < n := by omega
      have := ih _ hlt
      omega

theorem nextPow2_isPow2 (n : Nat) : ∃ j, nextPow2 n = 2 ^ j := by
  induction n using Nat.strong_induction_on with
  | _ n ih =>
    by_cases h : n ≤ 1
    · refine ⟨0, ?_⟩
      rw [nextPow2_unfold, if_pos h]
      rfl
    · have hlt : (n + 1) / 2 < n := by omega
      obtain ⟨j, hj⟩ := ih _ hlt
      refine ⟨j + 1, ?_⟩
      rw [nextPow2_unfold, if_neg h, hj, pow_succ]
      ring

theorem nextPow2_le_pow (n j : Nat) (h : n ≤ 2 ^ j) : nextPow2 n ≤ 2 ^ j := by
  induction n using Nat.strong_induction_on generalizing j with
  | _ n ih =>
    rw [nextPow2_unfold]
    by_cases h1 : n ≤ 1
    · rw [if_pos h1]
      exact Nat.one_le_two_pow
    · rw [if_neg h1]
      have hlt : (n + 1) / 2 < n := by omega
      have hj1 : 1 ≤ j := by
        by_contra hc
        have hj0 : j = 0 := by omega
        subst hj0
        simp only [pow_zero] at h
        omega
      have hpow : 2 ^ j = 2 * 2 ^ (j - 1) := by
        rw [← pow_succ']
        congr 1
        omega
      have hhalf : (n + 1) / 2 ≤ 2 ^ (j - 1) := by omega
      have := ih _ hlt _ hhalf
      omega

/-- Single-call correctness of the ring-buffer allocator in its 32-bit safe
range: starting from a state whose write cursor is inside the buffer, whose
synchronization mark is 0 (no frame-boundary sync has moved it) and whose
capacity is at most `2^30`, a request of at most the capacity at any 32-bit
power-of-two alignment returns an offset that is a multiple of the alignment
and whose extent stays strictly inside the capacity, and re-establishes the
same state invariant. -/
theorem ringBufferAllocate_step (rs : RingState) (size k : Nat)
    (hsync : rs.lastSyncedRingBufPtr = 0)
    (hpos : 0 < rs.ringBufSize)
    (hcap : rs.ringBufSize ≤ 2 ^ 30)
    (hptr : rs.ringBufPtr < rs.ringBufSize)
    (hsize : size ≤ rs.ringBufSize)
    (hk : k ≤ 31) :
    2 ^ k ∣ (ringBufferAllocate rs size (2 ^ k)).1 ∧
    (ringBufferAllocate rs size (2 ^ k)).1 + size ≤ rs.ringBufSize ∧
    rs.ringBufSize ≤ (ringBufferAllocate rs size (2 ^ k)).2.ringBufSize ∧
    (ringBufferAllocate rs size (2 ^ k)).2.lastSyncedRingBufPtr = 0 ∧
    0 < (ringBufferAllocate rs size (2 ^ k)).2.ringBufSize ∧
    (ringBufferAllocate rs size (2 ^ k)).2.ringBufPtr < (ringBufferAllocate rs size (2 ^ k)).2.ringBufSize := by
  have e30 : (2 : Nat) ^ 30 = 1073741824 := by norm_num
  have e31 : (2 : Nat) ^ 31 = 2147483648 := by norm_num
  have hU : U32 = 4294967296 := rfl
  have ha1 : 1 ≤ (2 : Nat) ^ k := Nat.one_le_two_pow
  have ha31 : (2 : Nat) ^ k ≤ 2 ^ 31 := Nat.pow_le_pow_right (by norm_num) hk
  have hA : alignUp32 rs.ringBufPtr (2 ^ k) = (rs.ringBufPtr + (2 ^ k - 1)) / 2 ^ k * 2 ^ k :=
    alignUp32_eq_div_mul _ _ hk (by omega)
  have hB : alignUp32 rs.ringBufSize (2 ^ k) = (rs.ringBufSize + (2 ^ k - 1)) / 2 ^ k * 2 ^ k :=
    alignUp32_eq_div_mul _ _ hk (by omega)
  have hApl : rs.ringBufPtr ≤ (rs.ringBufPtr + (2 ^ k - 1)) / 2 ^ k * 2 ^ k :=
    le_align_div_mul _ _ (by omega)
  have hAu : (rs.ringBufPtr + (2 ^ k - 1)) / 2 ^ k * 2 ^ k ≤ rs.ringBufPtr + (2 ^ k - 1) :=
    align_div_mul_le _ _
  have hdvdA : 2 ^ k ∣ (rs.ringBufPtr + (2 ^ k - 1)) / 2 ^ k * 2 ^ k :=
    dvd_align_div_mul _ _
  have hBpl : rs.ringBufSize ≤ (rs.ringBufSize + (2 ^ k - 1)) / 2 ^ k * 2 ^ k :=
    le_align_div_mul _ _ (by omega)
  have hBu : (rs.ringBufSize + (2 ^ k - 1)) / 2 ^ k * 2 ^ k ≤ rs.ringBufSize + (2 ^ k - 1) :=
    align_div_mul_le _ _
  have hAmod : (rs.ringBufPtr + (2 ^ k - 1)) / 2 ^ k * 2 ^ k % rs.ringBufSize < rs.ringBufSize :=
    Nat.mod_lt _ (by omega)
  have hgrow : ¬ rs.ringBufSize < size := by omega
  have hdiv : rs.ringBufPtr / rs.ringBufSize = 0 := Nat.div_eq_of_lt hptr
  have hp : ((rs.ringBufPtr / rs.ringBufSize + 1) * rs.ringBufSize) % U32 = rs.ringBufSize := by
    rw [hdiv, Nat.zero_add, Nat.one_mul]
    exact Nat.mod_eq_of_lt (by omega)
  have hm1 : ((rs.ringBufPtr + (2 ^ k - 1)) / 2 ^ k * 2 ^ k % rs.ringBufSize + size) % U32
      = (rs.ringBufPtr + (2 ^ k - 1)) / 2 ^ k * 2 ^ k % rs.ringBufSize + size :=
    Nat.mod_eq_of_lt (by omega)
  have hmB : ((rs.ringBufSize + (2 ^ k - 1)) / 2 ^ k * 2 ^ k + size) % U32
      = (rs.ringBufSize + (2 ^ k - 1)) / 2 ^ k * 2 ^ k + size :=
    Nat.mod_eq_of_lt (by omega)
  have hmA : ((rs.ringBufPtr + (2 ^ k - 1)) / 2 ^ k * 2 ^ k + size) % U32
      = (rs.ringBufPtr + (2 ^ k - 1)) / 2 ^ k * 2 ^ k + size :=
    Nat.mod_eq_of_lt (by omega)
  have hm0 : (0 + rs.ringBufSize) % U32 = rs.ringBufSize := by
    rw [Nat.zero_add]
    exact Nat.mod_eq_of_lt (by omega)
  have hm2 : (rs.ringBufSize * 2) % U32 = rs.ringBufSize * 2 :=
    Nat.mod_eq_of_lt (by omega)
  simp only [ringBufferAllocate]
  rw [if_neg hgrow, hA, hp, hB, hsync, hm0, hm1, hm2]
  split_ifs with h1 h2 h3
  · refine ⟨dvd_zero _, ?_, ?_, ?_, ?_, ?_⟩ <;> simp [recreateRingBuffer] <;> omega
  · exfalso
    rw [hmB] at h2
    omega
  · refine ⟨dvd_zero _, ?_, ?_, ?_, ?_, ?_⟩ <;> simp [recreateRingBuffer] <;> omega
  · rw [hmA] at h3
    have hAlt2 : (rs.ringBufPtr + (2 ^ k - 1)) / 2 ^ k * 2 ^ k < rs.ringBufSize := by omega
    refine ⟨?_, ?_, ?_, ?_, ?_, ?_⟩
    · simp [Nat.mod_eq_of_lt hAlt2]
    · simp [Nat.mod_eq_of_lt hAlt2]
      omega
    · simp
    · simp [hsync]
    · simp [hpos]
    · simp [hmA]
      omega

/-- C1 — Corrected. For every sequence of `ringBufferAllocate(size, alignment)`
calls in which every `size` is at most the current buffer capacity, every
alignment is a nonzero 32-bit power of two, and additionally (the amendment)
the capacity current at each call is at most `2^30`, each returned offset is a
multiple of the requested alignment and the half-open range
`[offset, offset+size)` lies entirely within `[0, capacity)` for the capacity
current once the call returns — no allocation straddles the buffer's physical
end.  Starting state: write cursor inside the buffer and synchronization mark
0, as at renderer construction.  (Without the `2^30` bound the claim is false:
the 32-bit offset arithmetic wraps, see the counterexample.) -/
theorem c1_ring_allocations_aligned_within_capacity
    (rs : RingState) (reqs : List (Nat × Nat)) (outs : List (Nat × Nat))
    (hsync : rs.lastSyncedRingBufPtr = 0)
    (hpos : 0 < rs.ringBufSize)
    (hptr : rs.ringBufPtr < rs.ringBufSize)
    (hrun : allocRunChecked rs reqs = some outs) :
    List.Forall₂ (fun req out => 2 ^ req.2 ∣ out.1 ∧ out.1 + req.1 ≤ out.2) reqs outs := by
  induction reqs generalizing rs outs with
  | nil =>
    simp only [allocRunChecked] at hrun
    cases hrun
    exact List.Forall₂.nil
  | cons req rest ih =>
    obtain ⟨size, k⟩ := req
    simp only [allocRunChecked] at hrun
    split_ifs at hrun with hcond
    obtain ⟨hsize, hcap, hk⟩ := hcond
    obtain ⟨outs0, hrest, houts⟩ := Option.map_eq_some'.mp hrun
    subst houts
    have step := ringBufferAllocate_step rs size k hsync hpos hcap hptr hsize hk
    refine List.Forall₂.cons ⟨step.1, ?_⟩ ?_
    · exact le_trans step.2.1 step.2.2.1
    · exact ih _ _ step.2.2.2.1 step.2.2.2.2.1 step.2.2.2.2.2 hrest

/-- Witness for C1: a concrete three-call run through the checked runner. -/
theorem c1_witness :
    List.Forall₂ (fun (req : Nat × Nat) (out : Nat × Nat) => 2 ^ req.2 ∣ out.1 ∧ out.1 + req.1 ≤ out.2)
      [(16, 4), (100, 2), (200, 8)] [(0, 256), (16, 256), (0, 512)] :=
  c1_ring_allocations_aligned_within_capacity ⟨256, 0, 0⟩
    [(16, 4), (100, 2), (200, 8)] [(0, 256), (16, 256), (0, 512)]
    rfl (by norm_num) (by norm_num) (by decide)

/-- Counterexample refuting C1 as stated: with a 3 GiB ring buffer
(capacity `3 * 2^30`, a legal construction-time `ephemeralRingBufSize`), the
sequence `allocate(2^31, 1); allocate(3*2^30, 1)` keeps every size at most
the current capacity and every alignment a power of two, yet the second call
returns offset `2^31` while the capacity stays `3*2^30`, so
`[2^31, 2^31 + 3*2^30)` runs past the buffer's physical end: the 32-bit
computation `beginPtr + size` wraps and the boundary check passes vacuously. -/
theorem c1_counterexample :
    ringBufferAllocate ⟨3221225472, 0, 0⟩ 2147483648 1 = (0, ⟨3221225472, 2147483648, 0⟩) ∧
    (ringBufferAllocate ⟨3221225472, 2147483648, 0⟩ 3221225472 1).1 = 2147483648 ∧
    (ringBufferAllocate ⟨3221225472, 2147483648, 0⟩ 3221225472 1).2.ringBufSize = 3221225472 ∧
    (1 : Nat) = 2 ^ 0 ∧ 2147483648 ≤ 3221225472 ∧
    ¬ 2147483648 + 3221225472 ≤ 3221225472 := by
  refine ⟨?_, ?_, ?_, by norm_num, by norm_num, by norm_num⟩ <;> decide

/-- C2 — Corrected. When `ringBufferAllocate` is called with a size strictly
greater than the current capacity (any state, any 32-bit power-of-two
alignment, `size ≤ 2^30` to stay in the 32-bit safe range), the buffer is
reallocated and the triggering call itself returns offset 0, leaving the write
cursor at `size` and the synchronization mark at 0.  Capacity strictly
increases to at least the next power of two ≥ `size` — but it equals that
power of two only when `size` is not itself a power of two; when `size` is an
exact power of two the call immediately runs through the wrap-around path and
the safety valve, ending with capacity `2*size`.  Subsequent requests allocate
at the advanced cursor, not at offset 0. -/
theorem c2_oversized_request_grows_buffer (rs : RingState) (size k : Nat)
    (hgrow : rs.ringBufSize < size) (hk : k ≤ 31) (hsizeB : size ≤ 2 ^ 30) :
    (ringBufferAllocate rs size (2 ^ k)).1 = 0 ∧
    (ringBufferAllocate rs size (2 ^ k)).2.ringBufPtr = size ∧
    (ringBufferAllocate rs size (2 ^ k)).2.lastSyncedRingBufPtr = 0 ∧
    rs.ringBufSize < (ringBufferAllocate rs size (2 ^ k)).2.ringBufSize ∧
    nextPow2 size ≤ (ringBufferAllocate rs size (2 ^ k)).2.ringBufSize ∧
    (nextPow2 size = size → (ringBufferAllocate rs size (2 ^ k)).2.ringBufSize = 2 * size) ∧
    (nextPow2 size ≠ size → (ringBufferAllocate rs size (2 ^ k)).2.ringBufSize = nextPow2 size) := by
  have e30 : (2 : Nat) ^ 30 = 1073741824 := by norm_num
  have e31 : (2 : Nat) ^ 31 = 2147483648 := by norm_num
  have hU : U32 = 4294967296 := rfl
  have ha1 : 1 ≤ (2 : Nat) ^ k := Nat.one_le_two_pow
  have ha31 : (2 : Nat) ^ k ≤ 2 ^ 31 := Nat.pow_le_pow_right (by norm_num) hk
  have hsN : size ≤ nextPow2 size := le_nextPow2 size
  have hN30 : nextPow2 size ≤ 2 ^ 30 := nextPow2_le_pow size 30 hsizeB
  have hA0 : alignUp32 0 (2 ^ k) = 0 := by
    rw [alignUp32_eq_div_mul 0 k hk (by omega), Nat.zero_add,
      Nat.div_eq_of_lt (by omega), Nat.zero_mul]
  have hB : alignUp32 (nextPow2 size) (2 ^ k)
      = (nextPow2 size + (2 ^ k - 1)) / 2 ^ k * 2 ^ k :=
    alignUp32_eq_div_mul _ _ hk (by omega)
  have hBl : nextPow2 size ≤ (nextPow2 size + (2 ^ k - 1)) / 2 ^ k * 2 ^ k :=
    le_align_div_mul _ _ (by omega)
  have hBu : (nextPow2 size + (2 ^ k - 1)) / 2 ^ k * 2 ^ k ≤ nextPow2 size + (2 ^ k - 1) :=
    align_div_mul_le _ _
  have hmB : ((nextPow2 size + (2 ^ k - 1)) / 2 ^ k * 2 ^ k + size) % U32
      = (nextPow2 size + (2 ^ k - 1)) / 2 ^ k * 2 ^ k + size :=
    Nat.mod_eq_of_lt (by omega)
  have hms : size % U32 = size := Nat.mod_eq_of_lt (by omega)
  have hmN : nextPow2 size % U32 = nextPow2 size := Nat.mod_eq_of_lt (by omega)
  have hm2 : (nextPow2 size * 2) % U32 = nextPow2 size * 2 := Nat.mod_eq_of_lt (by omega)
  simp only [ringBufferAllocate]
  rw [if_pos (show size > rs.ringBufSize from hgrow)]
  simp only [recreateRingBuffer]
  rw [hA0]
  simp only [Nat.zero_div, Nat.zero_add, Nat.one_mul, Nat.zero_mod, hms, hmN, hm2]
  rw [hB]
  split_ifs with h1 h2 h3
  · have hEq : size = nextPow2 size := by omega
    refine ⟨rfl, rfl, rfl, ?_, ?_, ?_, ?_⟩ <;> intros <;> simp only [] <;> omega
  · exfalso
    rw [hmB] at h2
    omega
  · exfalso
    rw [Nat.zero_add, hms] at h3
    omega
  · rw [Nat.zero_add, hms] at h3
    have hNe : ¬ nextPow2 size = size := by omega
    refine ⟨by simp, by simp [hms], rfl, ?_, ?_, ?_, ?_⟩ <;> intros <;> simp only [] <;> omega

/-- Witness for C2: growing a 4-byte buffer with a 5-byte request at alignment
1 yields offset 0, cursor 5, capacity 8 = nextPow2 5. -/
theorem c2_witness :
    (ringBufferAllocate ⟨4, 0, 0⟩ 5 (2 ^ 0)).1 = 0 ∧
    (ringBufferAllocate ⟨4, 0, 0⟩ 5 (2 ^ 0)).2.ringBufPtr = 5 ∧
    (ringBufferAllocate ⟨4, 0, 0⟩ 5 (2 ^ 0)).2.lastSyncedRingBufPtr = 0 ∧
    (4 : Nat) < (ringBufferAllocate ⟨4, 0, 0⟩ 5 (2 ^ 0)).2.ringBufSize ∧
    nextPow2 5 ≤ (ringBufferAllocate ⟨4, 0, 0⟩ 5 (2 ^ 0)).2.ringBufSize ∧
    (nextPow2 5 = 5 → (ringBufferAllocate ⟨4, 0, 0⟩ 5 (2 ^ 0)).2.ringBufSize = 2 * 5) ∧
    (nextPow2 5 ≠ 5 → (ringBufferAllocate ⟨4, 0, 0⟩ 5 (2 ^ 0)).2.ringBufSize = nextPow2 5) :=
  c2_oversized_request_grows_buffer ⟨4, 0, 0⟩ 5 0 (by norm_num) (by norm_num) (by norm_num)

/-- Counterexample refuting C2 as stated, on two points.  First, after the
oversized call `allocate(5, 1)` grows a 4-byte buffer, the next
equal-or-smaller request `allocate(2, 1)` returns offset 5, not 0 (the write
cursor is not left at 0 after the triggering call).  Second, for an oversized
request whose size is an exact power of two, `allocate(8, 1)` on a 4-byte
buffer, the final capacity is 16, not the claimed next power of two ≥ 8,
which is 8. -/
theorem c2_counterexample :
    ringBufferAllocate ⟨4, 0, 0⟩ 5 1 = (0, ⟨8, 5, 0⟩) ∧
    (ringBufferAllocate ⟨8, 5, 0⟩ 2 1).1 = 5 ∧
    ringBufferAllocate ⟨4, 0, 0⟩ 8 1 = (0, ⟨16, 8, 0⟩) ∧
    nextPow2 8 = 8 ∧ (16 : Nat) ≠ 8 := by
  refine ⟨?_, ?_, ?_, ?_, ?_⟩ <;> decide

/-! ### Round-trip lemmas for the record text format -/

theorem natDigitsAux_zero (base fuel : Nat) (acc : List Char) :
    natDigitsAux base fuel 0 acc = acc := by
  cases fuel <;> rfl

theorem natDigitsAux_append (base : Nat) :
    ∀ fuel n acc, natDigitsAux base fuel n acc = natDigitsAux base fuel n [] ++ acc := by
  intro fuel
  induction fuel with
  | zero => intro n acc; rfl
  | succ f ih =>
    intro n acc
    match n with
    | 0 => rfl
    | m + 1 =>
      show natDigitsAux base f ((m + 1) / base) (digitChar ((m + 1) % base) :: acc)
        = natDigitsAux base (f + 1) (m + 1) [] ++ acc
      rw [show natDigitsAux base (f + 1) (m + 1) []
          = natDigitsAux base f ((m + 1) / base) [digitChar ((m + 1) % base)] from rfl,
        ih _ (digitChar ((m + 1) % base) :: acc), ih _ [digitChar ((m + 1) % base)]]
      simp

theorem natDigitsAux_ne_nil (base fuel n : Nat) (hn : 0 < n) (hf : 0 < fuel) :
    natDigitsAux base fuel n [] ≠ [] := by
  match fuel, n, hn, hf with
  | f + 1, m + 1, _, _ =>
    show natDigitsAux base f ((m + 1) / base) [digitChar ((m + 1) % base)] ≠ []
    rw [natDigitsAux_append]
    simp

theorem natDigitsAux_all (base : Nat) (P : Char → Prop)
    (hP : ∀ d, d < base → P (digitChar d)) (hb : 0 < base) :
    ∀ fuel n acc, (∀ c ∈ acc, P c) → ∀ c ∈ natDigitsAux base fuel n acc, P c := by
  intro fuel
  induction fuel with
  | zero => intro n acc hacc; exact hacc
  | succ f ih =>
    intro n acc hacc
    match n with
    | 0 => exact hacc
    | m + 1 =>
      refine ih _ _ ?_
      intro c hc
      rcases List.mem_cons.mp hc with h | h
      · subst h
        exact hP _ (Nat.mod_lt _ hb)
      · exact hacc _ h

theorem decValAux_append (es : List Char) :
    ∀ ds acc, (∀ c ∈ ds, isDecDigit c = true) →
      decValAux (ds ++ es) acc = decValAux es (decValAux ds acc) := by
  intro ds
  induction ds with
  | nil => intro acc _; rfl
  | cons c cs ih =>
    intro acc hall
    have hc : isDecDigit c = true := hall c (by simp)
    rw [show decValAux ((c :: cs) ++ es) acc
        = if isDecDigit c then decValAux (cs ++ es) (acc * 10 + (c.toNat - 48)) else acc from rfl,
      if_pos hc, ih _ (fun x hx => hall x (by simp [hx])),
      show decValAux (c :: cs) acc
        = if isDecDigit c then decValAux cs (acc * 10 + (c.toNat - 48)) else acc from rfl,
      if_pos hc]

theorem hexValAux_append (es : List Char) :
    ∀ ds acc, (∀ c ∈ ds, isHexDigit c = true) →
      hexValAux (ds ++ es) acc = hexValAux es (hexValAux ds acc) := by
  intro ds
  induction ds with
  | nil => intro acc _; rfl
  | cons c cs ih =>
    intro acc hall
    have hc : isHexDigit c = true := hall c (by simp)
    rw [show hexValAux ((c :: cs) ++ es) acc
        = if isHexDigit c then hexValAux (cs ++ es) (acc * 16 + hexDigitVal c) else acc from rfl,
      if_pos hc, ih _ (fun x hx => hall x (by simp [hx])),
      show hexValAux (c :: cs) acc
        = if isHexDigit c then hexValAux cs (acc * 16 + hexDigitVal c) else acc from rfl,
      if_pos hc]

theorem digitChar_dec (d : Nat) (hd : d < 10) :
    isDecDigit (digitChar d) = true ∧ (digitChar d).toNat - 48 = d ∧ digitChar d ≠ ',' := by
  interval_cases d <;> exact ⟨rfl, rfl, by decide⟩

theorem digitChar_hex (d : Nat) (hd : d < 16) :
    isHexDigit (digitChar d) = true ∧ hexDigitVal (digitChar d) = d ∧ digitChar d ≠ ',' := by
  interval_cases d <;> exact ⟨rfl, rfl, by decide⟩

theorem decValAux_natDigits (n : Nat) : ∀ fuel a0, 0 < n → n ≤ fuel →
    decValAux (natDigitsAux 10 fuel n []) a0
      = a0 * 10 ^ (natDigitsAux 10 fuel n []).length + n := by
  induction n using Nat.strong_induction_on with
  | _ n ih =>
    intro fuel a0 hn hf
    obtain ⟨f, rfl⟩ : ∃ f, fuel = f + 1 := ⟨fuel - 1, by omega⟩
    obtain ⟨m, rfl⟩ : ∃ m, n = m + 1 := ⟨n - 1, by omega⟩
    · rw [show natDigitsAux 10 (f + 1) (m + 1) []
          = natDigitsAux 10 f ((m + 1) / 10) [digitChar ((m + 1) % 10)] from rfl,
        natDigitsAux_append]
      obtain ⟨hdig, hval, _⟩ := digitChar_dec ((m + 1) % 10) (Nat.mod_lt _ (by norm_num))
      by_cases hsmall : m + 1 < 10
      · rw [Nat.div_eq_of_lt hsmall, natDigitsAux_zero]
        have hmod : (m + 1) % 10 = m + 1 := Nat.mod_eq_of_lt hsmall
        simp only [List.nil_append, List.length_cons, List.length_nil]
        show (if isDecDigit (digitChar ((m + 1) % 10)) then
            decValAux [] (a0 * 10 + ((digitChar ((m + 1) % 10)).toNat - 48)) else a0)
          = a0 * 10 ^ 1 + (m + 1)
        rw [if_pos hdig]
        show a0 * 10 + ((digitChar ((m + 1) % 10)).toNat - 48) = a0 * 10 ^ 1 + (m + 1)
        rw [hval, hmod]
        ring
      · have hq : 0 < (m + 1) / 10 := Nat.div_pos (by omega) (by norm_num)
        have hqlt : (m + 1) / 10 < m + 1 := Nat.div_lt_self (by omega) (by norm_num)
        have hqf : (m + 1) / 10 ≤ f := by omega
        have hall : ∀ c ∈ natDigitsAux 10 f ((m + 1) / 10) [], isDecDigit c = true :=
          natDigitsAux_all 10 (fun c => isDecDigit c = true)
            (fun d hd => (digitChar_dec d hd).1) (by norm_num) f _ [] (by simp)
        rw [decValAux_append _ _ _ hall, ih _ hqlt f a0 hq hqf]
        show (if isDecDigit (digitChar ((m + 1) % 10)) then
            decValAux [] ((a0 * 10 ^ (natDigitsAux 10 f ((m + 1) / 10) []).length + (m + 1) / 10)
              * 10 + ((digitChar ((m + 1) % 10)).toNat - 48)) else _)
          = _
        rw [if_pos hdig]
        show (a0 * 10 ^ (natDigitsAux 10 f ((m + 1) / 10) []).length + (m + 1) / 10) * 10
            + ((digitChar ((m + 1) % 10)).toNat - 48) = _
        rw [hval]
        have hlen : (natDigitsAux 10 f ((m + 1) / 10) [] ++ [digitChar ((m + 1) % 10)]).length
            = (natDigitsAux 10 f ((m + 1) / 10) []).length + 1 := by simp
        rw [hlen, pow_succ]
        have hdm := Nat.div_add_mod (m + 1) 10
        ring_nf
        omega

theorem hexValAux_natDigits (n : Nat) : ∀ fuel a0, 0 < n → n ≤ fuel →
    hexValAux (natDigitsAux 16 fuel n []) a0
      = a0 * 16 ^ (natDigitsAux 16 fuel n []).length + n := by
  induction n using Nat.strong_induction_on with
  | _ n ih =>
    intro fuel a0 hn hf
    obtain ⟨f, rfl⟩ : ∃ f, fuel = f + 1 := ⟨fuel - 1, by omega⟩
    obtain ⟨m, rfl⟩ : ∃ m, n = m + 1 := ⟨n - 1, by omega⟩
    · rw [show natDigitsAux 16 (f + 1) (m + 1) []
          = natDigitsAux 16 f ((m + 1) / 16) [digitChar ((m + 1) % 16)] from rfl,
        natDigitsAux_append]
      obtain ⟨hdig, hval, _⟩ := digitChar_hex ((m + 1) % 16) (Nat.mod_lt _ (by norm_num))
      by_cases hsmall : m + 1 < 16
      · rw [Nat.div_eq_of_lt hsmall, natDigitsAux_zero]
        have hmod : (m + 1) % 16 = m + 1 := Nat.mod_eq_of_lt hsmall
        simp only [List.nil_append, List.length_cons, List.length_nil]
        show (if isHexDigit (digitChar ((m + 1) % 16)) then
            hexValAux [] (a0 * 16 + hexDigitVal (digitChar ((m + 1) % 16))) else a0)
          = a0 * 16 ^ 1 + (m + 1)
        rw [if_pos hdig]
        show a0 * 16 + hexDigitVal (digitChar ((m + 1) % 16)) = a0 * 16 ^ 1 + (m + 1)
        rw [hval, hmod]
        ring
      · have hq : 0 < (m + 1) / 16 := Nat.div_pos (by omega) (by norm_num)
        have hqlt : (m + 1) / 16 < m + 1 := Nat.div_lt_self (by omega) (by norm_num)
        have hqf : (m + 1) / 16 ≤ f := by omega
        have hall : ∀ c ∈ natDigitsAux 16 f ((m + 1) / 16) [], isHexDigit c = true :=
          natDigitsAux_all 16 (fun c => isHexDigit c = true)
            (fun d hd => (digitChar_hex d hd).1) (by norm_num) f _ [] (by simp)
        rw [hexValAux_append _ _ _ hall, ih _ hqlt f a0 hq hqf]
        show (if isHexDigit (digitChar ((m + 1) % 16)) then
            hexValAux [] ((a0 * 16 ^ (natDigitsAux 16 f ((m + 1) / 16) []).length + (m + 1) / 16)
              * 16 + hexDigitVal (digitChar ((m + 1) % 16))) else _)
          = _
        rw [if_pos hdig]
        show (a0 * 16 ^ (natDigitsAux 16 f ((m + 1) / 16) []).length + (m + 1) / 16) * 16
            + hexDigitVal (digitChar ((m + 1) % 16)) = _
        rw [hval]
        have hlen : (natDigitsAux 16 f ((m + 1) / 16) [] ++ [digitChar ((m + 1) % 16)]).length
            = (natDigitsAux 16 f ((m + 1) / 16) []).length + 1 := by simp
        rw [hlen, pow_succ]
        have hdm := Nat.div_add_mod (m + 1) 16
        ring_nf
        omega

theorem intercalate_comma_cons (b : List Char) (deps : List (List Char)) :
    [','].intercalate (b :: deps) = b ++ (deps.map (fun d => ',' :: d)).flatten := by
  induction deps generalizing b with
  | nil => simp [List.intercalate, List.intersperse]
  | cons d t ih =>
    rw [show [','].intercalate (b :: d :: t) = b ++ [','] ++ [','].intercalate (d :: t) by
      simp [List.intercalate, List.intersperse]]
    rw [ih d]
    simp

theorem serialize_eq_intercalate (cd : CacheData) :
    cd.serialize = [','].intercalate (natToDec cd.version :: natToHex cd.hash :: cd.dependencies) := by
  rw [intercalate_comma_cons]
  simp [CacheData.serialize]

theorem natToDec_no_comma (n : Nat) : ∀ c ∈ natToDec n, c ≠ ',' := by
  unfold natToDec
  by_cases h : n = 0
  · rw [if_pos h]
    decide
  · rw [if_neg h]
    exact natDigitsAux_all 10 (fun c => c ≠ ',')
      (fun d hd => (digitChar_dec d hd).2.2) (by norm_num) n n [] (by simp)

theorem natToHex_all_hex (n : Nat) : ∀ c ∈ natToHex n, isHexDigit c = true := by
  unfold natToHex
  by_cases h : n = 0
  · rw [if_pos h]
    decide
  · rw [if_neg h]
    exact natDigitsAux_all 16 (fun c => isHexDigit c = true)
      (fun d hd => (digitChar_hex d hd).1) (by norm_num) n n [] (by simp)

theorem natToHex_no_comma (n : Nat) : ∀ c ∈ natToHex n, c ≠ ',' := by
  intro c hc
  have := natToHex_all_hex n c hc
  intro hcomma
  subst hcomma
  exact absurd this (by decide)

theorem hexValAux_natToHex (n : Nat) : hexValAux (natToHex n) 0 = n := by
  unfold natToHex
  by_cases h : n = 0
  · rw [if_pos h, h]
    rfl
  · rw [if_neg h]
    rw [hexValAux_natDigits n n 0 (by omega) (le_refl n)]
    simp

theorem natToHex_ne_nil (n : Nat) : natToHex n ≠ [] := by
  unfold natToHex
  by_cases h : n = 0
  · rw [if_pos h]
    simp
  · rw [if_neg h]
    exact natDigitsAux_ne_nil 16 n n (by omega) (by omega)

theorem stoull16_of_hex (s : List Char) (hs : s ≠ [])
    (hhead : ∀ c ∈ s, isHexDigit c = true) (hv : hexValAux s 0 < 2 ^ 64) :
    stoull16 s = some (hexValAux s 0) := by
  match s, hs with
  | c :: cs, _ =>
    show (if isHexDigit c then
        if hexValAux (c :: cs) 0 < 2 ^ 64 then some (hexValAux (c :: cs) 0) else none
      else none) = _
    rw [if_pos (hhead c (by simp)), if_pos hv]

/-- C6 — Corrected (the amended claim).  For a cache record whose version is
the current `shaderVersion`, whose hash is any 64-bit value and whose
dependency paths contain no comma (the record delimiter), parsing the
serialized comma-delimited line returns the original record. -/
theorem c6_cache_record_roundtrip (h : Nat) (deps : List (List Char))
    (hh : h < 2 ^ 64) (hdeps : ∀ d ∈ deps, (',' : Char) ∉ d) :
    CacheData.parse (CacheData.serialize ⟨shaderVersion, h, deps⟩)
      = ⟨shaderVersion, h, deps⟩ := by
  have hsplit : (CacheData.serialize ⟨shaderVersion, h, deps⟩).splitOn ','
      = natToDec shaderVersion :: natToHex h :: deps := by
    rw [serialize_eq_intercalate]
    refine List.splitOn_intercalate _ ',' ?_ (by simp)
    intro l hl
    rcases List.mem_cons.mp hl with rfl | hl
    · intro hmem
      exact natToDec_no_comma _ _ hmem rfl
    rcases List.mem_cons.mp hl with rfl | hl
    · intro hmem
      exact natToHex_no_comma _ _ hmem rfl
    · exact hdeps _ hl
  have hver : atoiM (natToDec shaderVersion) = shaderVersion := by decide
  have hsto : stoull16 (natToHex h) = some h := by
    rw [stoull16_of_hex _ (natToHex_ne_nil h) (natToHex_all_hex h)
      (by rw [hexValAux_natToHex]; exact hh), hexValAux_natToHex]
  unfold CacheData.parse
  rw [hsplit]
  simp only [hver, hsto]
  simp

/-- Witness for C6: a concrete record with two dependencies round-trips. -/
theorem c6_witness :
    CacheData.parse (CacheData.serialize ⟨shaderVersion, 81985529216486895, [['a', 'b'], ['c']]⟩)
      = ⟨shaderVersion, 81985529216486895, [['a', 'b'], ['c']]⟩ :=
  c6_cache_record_roundtrip 81985529216486895 [['a', 'b'], ['c']]
    (by norm_num) (by decide)

/-- Counterexample refuting C6 as stated: the round-trip fails for arbitrary
version numbers.  For the record `{version 0, hash 1, no dependencies}`,
`parse` stops at the version mismatch (0 is not the current compiler version
20) and never reads the hash, so the hash comes back 0, not 1. -/
theorem c6_counterexample :
    CacheData.parse (CacheData.serialize ⟨0, 1, []⟩) ≠ ⟨0, 1, []⟩ ∧
    CacheData.parse (CacheData.serialize ⟨0, 1, []⟩) = ⟨0, 0, []⟩ := by
  refine ⟨?_, ?_⟩ <;> decide

/-- C5 — Confirmed. `loadCachedSPV` reports a miss whenever (i) the parsed
record's version differs from the current compiler version constant,
regardless of any timestamps; (ii) the referenced binary `.spv` file is
missing; (iii) the source file is newer than the cache record; (iv) any
listed dependency is newer than the cache record. -/
theorem c5_cache_lookup_misses (fs : FileSys) (dir name shaderName : String) :
    (∀ c, fs.contents (dir ++ shaderName ++ ".cache") = some c →
      (CacheData.parse c).version ≠ shaderVersion →
      loadCachedSPV fs dir name shaderName = false) ∧
    (∀ c, fs.contents (dir ++ shaderName ++ ".cache") = some c →
      fs.contents (dir ++ hex8 (CacheData.parse c).hash ++ ".spv") = none →
      loadCachedSPV fs dir name shaderName = false) ∧
    (∀ c, fs.contents (dir ++ shaderName ++ ".cache") = some c →
      fs.mtime name > fs.mtime (dir ++ shaderName ++ ".cache") →
      loadCachedSPV fs dir name shaderName = false) ∧
    (∀ c d, fs.contents (dir ++ shaderName ++ ".cache") = some c →
      d ∈ (CacheData.parse c).dependencies →
      fs.mtime (String.mk d) > fs.mtime (dir ++ shaderName ++ ".cache") →
      loadCachedSPV fs dir name shaderName = false) := by
  refine ⟨?_, ?_, ?_, ?_⟩
  · intro c hc hv
    simp only [loadCachedSPV, hc]
    rw [if_pos hv]
  · intro c hc hspv
    simp only [loadCachedSPV, hc]
    by_cases hv : (CacheData.parse c).version ≠ shaderVersion
    · rw [if_pos hv]
    · rw [if_neg hv, hspv]
  · intro c hc htime
    simp only [loadCachedSPV, hc]
    by_cases hv : (CacheData.parse c).version ≠ shaderVersion
    · rw [if_pos hv]
    · rw [if_neg hv]
      cases hs : fs.contents (dir ++ hex8 (CacheData.parse c).hash ++ ".spv") with
      | none => rfl
      | some temp =>
        simp only []
        rw [if_pos htime]
  · intro c d hc hd htime
    simp only [loadCachedSPV, hc]
    by_cases hv : (CacheData.parse c).version ≠ shaderVersion
    · rw [if_pos hv]
    · rw [if_neg hv]
      cases hs : fs.contents (dir ++ hex8 (CacheData.parse c).hash ++ ".spv") with
      | none => rfl
      | some temp =>
        simp only []
        by_cases ht : fs.mtime name > fs.mtime (dir ++ shaderName ++ ".cache")
        · rw [if_pos ht]
        · rw [if_neg ht]
          have hany : (CacheData.parse c).dependencies.any
              (fun filename => fs.mtime (String.mk filename)
                > fs.mtime (dir ++ shaderName ++ ".cache")) = true := by
            rw [List.any_eq_true]
            exact ⟨d, hd, by simpa using htime⟩
          rw [if_pos hany]

/-- Witness for C5: a one-file system whose only cache record carries version
19; the lookup misses.  The theorem's first conjunct applies with the record's
parsed version 19 ≠ 20. -/
theorem c5_witness :
    loadCachedSPV
      ⟨fun p => if p = "cache/x.vert.cache" then some ['1', '9', ',', 'f', 'f'] else none,
        fun p => if p = "x.vert" then 5 else 0⟩
      "cache/" "x.vert" "x.vert" = false :=
  (c5_cache_lookup_misses _ "cache/" "x.vert" "x.vert").1
    ['1', '9', ',', 'f', 'f'] (by decide) (by decide)

theorem foldl_append_sep (sep : Char) :
    ∀ (l : List (List Char)) (acc : List Char),
      l.foldl (fun acc s => acc ++ sep :: s) acc = acc ++ (l.map (fun s => sep :: s)).flatten := by
  intro l
  induction l with
  | nil => intro acc; simp
  | cons s t ih =>
    intro acc
    rw [List.foldl_cons, ih]
    simp

theorem sep_split (sep : Char) :
    ∀ (a b x y : List Char), sep ∉ a → sep ∉ b →
      (x = [] ∨ ∃ u, x = sep :: u) → (y = [] ∨ ∃ u, y = sep :: u) →
      a ++ x = b ++ y → a = b ∧ x = y := by
  intro a
  induction a with
  | nil =>
    intro b x y ha hb hx hy heq
    simp only [List.nil_append] at heq
    rcases hx with rfl | ⟨u, rfl⟩
    · obtain ⟨rfl, rfl⟩ := (List.append_eq_nil).mp heq.symm
      exact ⟨rfl, rfl⟩
    · cases b with
      | nil =>
        simp only [List.nil_append] at heq
        exact ⟨rfl, heq⟩
      | cons c b2 =>
        exfalso
        simp only [List.cons_append, List.cons.injEq] at heq
        exact hb (by simp [heq.1])
  | cons c a2 ih =>
    intro b x y ha hb hx hy heq
    cases b with
    | nil =>
      exfalso
      simp only [List.nil_append] at heq
      rcases hy with rfl | ⟨u, rfl⟩
      · exact List.cons_ne_nil _ _ heq
      · simp only [List.cons_append, List.cons.injEq] at heq
        exact ha (by simp [heq.1])
    | cons c2 b2 =>
      simp only [List.cons_append, List.cons.injEq] at heq
      obtain ⟨rfl, heq2⟩ := heq
      obtain ⟨rfl, hxy⟩ := ih b2 x y (fun h => ha (by simp [h]))
        (fun h => hb (by simp [h])) hx hy heq2
      exact ⟨rfl, hxy⟩

theorem flatten_sep_head (sep : Char) (l : List (List Char)) :
    (l.map (fun s => sep :: s)).flatten = []
      ∨ ∃ u, (l.map (fun s => sep :: s)).flatten = sep :: u := by
  cases l with
  | nil => left; rfl
  | cons s t => right; exact ⟨_, rfl⟩

theorem flatten_sep_inj (sep : Char) :
    ∀ (l1 l2 : List (List Char)),
      (∀ s ∈ l1, s ≠ [] ∧ sep ∉ s) → (∀ s ∈ l2, s ≠ [] ∧ sep ∉ s) →
      (l1.map (fun s => sep :: s)).flatten = (l2.map (fun s => sep :: s)).flatten →
      l1 = l2 := by
  intro l1
  induction l1 with
  | nil =>
    intro l2 h1 h2 heq
    cases l2 with
    | nil => rfl
    | cons s t => exact absurd heq.symm (by simp)
  | cons s1 t1 ih =>
    intro l2 h1 h2 heq
    cases l2 with
    | nil => exact absurd heq (by simp)
    | cons s2 t2 =>
      simp only [List.map_cons, List.flatten_cons, List.cons_append, List.cons.injEq,
        true_and] at heq
      obtain ⟨hs, hrest⟩ := sep_split sep s1 s2 _ _
        (h1 s1 (by simp)).2 (h2 s2 (by simp)).2
        (flatten_sep_head sep t1) (flatten_sep_head sep t2) heq
      subst hs
      rw [ih t2 (fun s hs => h1 s (by simp [hs])) (fun s hs => h2 s (by simp [hs])) hrest]

theorem serializeMacro_good (m : List Char × List Char) (hg : goodMacro m) :
    serializeMacro m ≠ [] ∧ ('_' : Char) ∉ serializeMacro m := by
  obtain ⟨hne, hn1, hn2, hv⟩ := hg
  unfold serializeMacro
  by_cases h2 : m.2 = []
  · rw [if_pos h2]
    exact ⟨hne, hn1⟩
  · rw [if_neg h2]
    refine ⟨by simp, ?_⟩
    intro hmem
    rcases List.mem_append.mp hmem with h | h
    · exact hn1 h
    · rcases List.mem_cons.mp h with h | h
      · exact absurd h (by decide)
      · exact hv h

theorem serializeMacro_inj (m1 m2 : List Char × List Char)
    (hg1 : goodMacro m1) (hg2 : goodMacro m2)
    (heq : serializeMacro m1 = serializeMacro m2) : m1 = m2 := by
  obtain ⟨n1, v1⟩ := m1
  obtain ⟨n2, v2⟩ := m2
  obtain ⟨hne1, hu1, he1, hw1⟩ := hg1
  obtain ⟨hne2, hu2, he2, hw2⟩ := hg2
  simp only [serializeMacro] at heq
  by_cases h1 : v1 = []
  · by_cases h2 : v2 = []
    · rw [if_pos h1, if_pos h2] at heq
      subst h1
      subst h2
      simp [heq]
    · rw [if_pos h1, if_neg h2] at heq
      exfalso
      have hmem : ('=' : Char) ∈ n2 ++ '=' :: v2 :=
        List.mem_append_right _ (List.mem_cons_self _ _)
      rw [← heq] at hmem
      exact he1 hmem
  · by_cases h2 : v2 = []
    · rw [if_neg h1, if_pos h2] at heq
      exfalso
      have hmem : ('=' : Char) ∈ n1 ++ '=' :: v1 :=
        List.mem_append_right _ (List.mem_cons_self _ _)
      rw [heq] at hmem
      exact he2 hmem
    · rw [if_neg h1, if_neg h2] at heq
      obtain ⟨rfl, hv⟩ := sep_split '=' n1 n2 ('=' :: v1) ('=' :: v2) he1 he2
        (Or.inr ⟨v1, rfl⟩) (Or.inr ⟨v2, rfl⟩) heq
      simp only [List.cons.injEq, true_and] at hv
      simp [hv]

theorem perm_of_map_perm {α β : Type} [DecidableEq α] (f : α → β) :
    ∀ (l1 l2 : List α), (∀ x ∈ l1, ∀ y ∈ l2, f x = f y → x = y) →
      (l1.map f).Perm (l2.map f) → l1.Perm l2 := by
  intro l1
  induction l1 with
  | nil =>
    intro l2 hinj hperm
    have h0 : l2.map f = [] := List.perm_nil.mp hperm.symm
    rw [List.map_eq_nil_iff.mp h0]
  | cons x t1 ih =>
    intro l2 hinj hperm
    have hmx : f x ∈ l2.map f := hperm.mem_iff.mp (by simp)
    obtain ⟨y, hy, hfy⟩ := List.mem_map.mp hmx
    have hxy : x = y := hinj x (by simp) y hy hfy.symm
    have hxl2 : x ∈ l2 := hxy ▸ hy
    have hperm2 : l2.Perm (x :: l2.erase x) := List.perm_cons_erase hxl2
    have hmap2 : (l2.map f).Perm (f x :: (l2.erase x).map f) := by
      have hm := hperm2.map f
      simpa using hm
    have hcomb : (f x :: t1.map f).Perm (f x :: (l2.erase x).map f) := by
      refine List.Perm.trans ?_ hmap2
      simpa using hperm
    have htail : (t1.map f).Perm ((l2.erase x).map f) := hcomb.cons_inv
    have ht : t1.Perm (l2.erase x) :=
      ih (l2.erase x)
        (fun u hu v hv => hinj u (by simp [hu]) v (List.mem_of_mem_erase hv)) htail
    exact (ht.cons x).trans hperm2.symm

theorem insertSorted_perm (s : List Char) :
    ∀ l, (insertSorted s l).Perm (s :: l) := by
  intro l
  induction l with
  | nil => exact List.Perm.refl _
  | cons t ts ih =>
    show (if strLe s t then s :: t :: ts else t :: insertSorted s ts).Perm (s :: t :: ts)
    by_cases h : strLe s t
    · rw [if_pos h]
    · rw [if_neg h]
      exact (ih.cons t).trans (List.Perm.swap s t ts)

theorem sortStrings_perm : ∀ l, (sortStrings l).Perm l := by
  intro l
  induction l with
  | nil => exact List.Perm.refl _
  | cons s ss ih =>
    show (insertSorted s (sortStrings ss)).Perm (s :: ss)
    exact (insertSorted_perm s (sortStrings ss)).trans (ih.cons s)

/-- C7 — Corrected (the amended claim).  The disambiguated shader name is
injective in the macro set as long as macro names are nonempty and free of
the underscore and equals-sign delimiter characters and macro values are free
of underscores: two such macro sets that differ as sets of (name, value)
entries produce different disambiguated names for the same source name. -/
theorem c7_macro_disambiguation_injective (name : List Char)
    (m1 m2 : List (List Char × List Char))
    (hg1 : ∀ m ∈ m1, goodMacro m) (hg2 : ∀ m ∈ m2, goodMacro m)
    (hne : ¬ m1.Perm m2) :
    shaderNameWithMacros name m1 ≠ shaderNameWithMacros name m2 := by
  intro heq
  apply hne
  unfold shaderNameWithMacros at heq
  rw [foldl_append_sep, foldl_append_sep] at heq
  have hjoin := List.append_cancel_left heq
  have hsortgood : ∀ (m : List (List Char × List Char)), (∀ x ∈ m, goodMacro x) →
      ∀ s ∈ sortStrings (m.map serializeMacro), s ≠ [] ∧ ('_' : Char) ∉ s := by
    intro m hg s hs
    have hmem : s ∈ m.map serializeMacro := ((sortStrings_perm _).mem_iff).mp hs
    obtain ⟨x, hx, rfl⟩ := List.mem_map.mp hmem
    exact serializeMacro_good x (hg x hx)
  have hsorteq : sortStrings (m1.map serializeMacro) = sortStrings (m2.map serializeMacro) :=
    flatten_sep_inj '_' _ _ (hsortgood m1 hg1) (hsortgood m2 hg2) hjoin
  have hp2 : (sortStrings (m1.map serializeMacro)).Perm (m2.map serializeMacro) := by
    rw [hsorteq]
    exact sortStrings_perm _
  have hmapperm : (m1.map serializeMacro).Perm (m2.map serializeMacro) :=
    (sortStrings_perm (m1.map serializeMacro)).symm.trans hp2
  exact perm_of_map_perm serializeMacro m1 m2
    (fun x hx y hy hf => serializeMacro_inj x y (hg1 x hx) (hg2 y hy) hf) hmapperm

/-- Witness for C7: the singleton macro sets `{A}` and `{B}` get different
disambiguated names. -/
theorem c7_witness :
    shaderNameWithMacros ['x'] [(['A'], [])] ≠ shaderNameWithMacros ['x'] [(['B'], [])] :=
  c7_macro_disambiguation_injective ['x'] [(['A'], [])] [(['B'], [])]
    (by decide) (by decide) (by decide)

/-- Counterexample refuting C7 as stated: the macro set `{A_B}` (one macro
named `A_B`, no value) and the macro set `{A, B}` (two macros, no values) are
distinct, yet both disambiguate the source name `x` to `x_A_B` — the
underscore separator is ambiguous against underscores inside macro names, so
distinct macro combinations can collide in the cache. -/
theorem c7_counterexample :
    shaderNameWithMacros ['x'] [(['A', '_', 'B'], [])]
      = shaderNameWithMacros ['x'] [(['A'], []), (['B'], [])] ∧
    shaderNameWithMacros ['x'] [(['A', '_', 'B'], [])] = ['x', '_', 'A', '_', 'B'] ∧
    ¬ ([(['A', '_', 'B'], ([] : List Char))].Perm [(['A'], []), (['B'], [])]) := by
  refine ⟨?_, ?_, ?_⟩ <;> decide

/-! ### Registry and ephemeral-release facts -/

theorem Registry.get_add {α : Type} (r : Registry α) (x : α) :
    ((r.add x).2).get (r.add x).1 = some x := by
  simp [Registry.add, Registry.get, List.find?]

theorem Registry.get_remove_self {α : Type} (r : Registry α) (h : Nat) :
    (r.remove h).get h = none := by
  unfold Registry.remove Registry.get
  simp only [Option.map_eq_none', List.find?_eq_none]
  intro e he
  have hmem := List.mem_filter.mp he
  simpa using fun hc => absurd hc (by simpa using hmem.2)

theorem Registry.get_remove_of_none {α : Type} (r : Registry α) (h x : Nat)
    (hx : r.get x = none) : (r.remove h).get x = none := by
  unfold Registry.remove Registry.get
  unfold Registry.get at hx
  simp only [Option.map_eq_none', List.find?_eq_none] at hx ⊢
  intro e he
  exact hx e (List.mem_filter.mp he).1

theorem releaseEphemeral_preserves_none (ring : Nat) :
    ∀ (hs : List Nat) (bufs bufs' : Registry Buffer) (x : Nat),
      releaseEphemeral ring bufs hs = some bufs' → bufs.get x = none →
      bufs'.get x = none := by
  intro hs
  induction hs with
  | nil =>
    intro bufs bufs' x hrel hx
    cases hrel
    exact hx
  | cons h t ih =>
    intro bufs bufs' x hrel hx
    simp only [releaseEphemeral, bind, Option.bind_eq_some, guard, failure, pure,
      Option.ite_none_right_eq_some] at hrel
    obtain ⟨b, hb, u1, ⟨h1, hu1⟩, u2, ⟨h2, hu2⟩, u3, ⟨h3, hu3⟩, hrest⟩ := hrel
    exact ih _ _ _ hrest (Registry.get_remove_of_none _ _ _ hx)

theorem releaseEphemeral_removes (ring : Nat) :
    ∀ (hs : List Nat) (bufs bufs' : Registry Buffer),
      releaseEphemeral ring bufs hs = some bufs' →
      ∀ h ∈ hs, bufs'.get h = none := by
  intro hs
  induction hs with
  | nil =>
    intro bufs bufs' hrel h hmem
    exact absurd hmem (List.not_mem_nil _)
  | cons h0 t ih =>
    intro bufs bufs' hrel h hmem
    simp only [releaseEphemeral, bind, Option.bind_eq_some, guard, failure, pure,
      Option.ite_none_right_eq_some] at hrel
    obtain ⟨b, hb, u1, ⟨h1, hu1⟩, u2, ⟨h2, hu2⟩, u3, ⟨h3, hu3⟩, hrest⟩ := hrel
    rcases List.mem_cons.mp hmem with rfl | hmem2
    · exact releaseEphemeral_preserves_none ring t _ _ h hrest
        (Registry.get_remove_self _ _)
    · exact ih _ _ hrest h hmem2

/-- C4 — Confirmed. When `presentFrame` completes, the renderer's
ephemeral-buffer list is empty, the state machine is back in `Idle`
(`inFrame = false`, so a subsequent `beginFrame` is permitted), and every
handle that was on the ephemeral list — exactly the buffers created by
`createEphemeralBuffer` since the previous `presentFrame`, by the second
conjunct — has been removed from the buffer registry. -/
theorem c4_presentFrame_releases_ephemeral_buffers :
    (∀ st image st', presentFrame st image = some st' →
      st'.ephemeralBuffers = [] ∧ st'.inFrame = false ∧
      ∀ h ∈ st.ephemeralBuffers, st'.buffers.get h = none) ∧
    (∀ st size h st', createEphemeralBuffer st size = some (h, st') →
      st'.ephemeralBuffers = st.ephemeralBuffers ++ [h]) := by
  constructor
  · intro st image st' hsome
    simp only [presentFrame, bind, Option.bind_eq_some, guard, failure, pure,
      Option.ite_none_right_eq_some] at hsome
    obtain ⟨u1, ⟨hin, _⟩, rt, hrt, u2, ⟨hlay, _⟩, u3, ⟨hw, _⟩, u4, ⟨hh, _⟩,
      u5, ⟨hw0, _⟩, u6, ⟨hh0, _⟩, hrest⟩ := hsome
    by_cases hfbo : rt.readFBO = 0
    · rw [if_pos hfbo] at hrest
      simp only [bind, Option.bind_eq_some, guard, failure, pure,
        Option.ite_none_right_eq_some, Option.some.injEq] at hrest
      obtain ⟨tex, htex, u7, ⟨h7, _⟩, u8, ⟨h8, _⟩, st2, hst2, bufs, hrel, hst'⟩ := hrest
      subst hst2
      subst hst'
      refine ⟨rfl, rfl, ?_⟩
      intro h hmem
      exact releaseEphemeral_removes _ _ _ _ hrel h hmem
    · rw [if_neg hfbo] at hrest
      simp only [bind, Option.bind_eq_some, Option.some.injEq] at hrest
      obtain ⟨st2, hst2, bufs, hrel, hst'⟩ := hrest
      subst hst2
      subst hst'
      refine ⟨rfl, rfl, ?_⟩
      intro h hmem
      exact releaseEphemeral_removes _ _ _ _ hrel h hmem
  · intro st size h st' hsome
    simp only [createEphemeralBuffer, bind, Option.bind_eq_some, guard, failure, pure,
      Option.ite_none_right_eq_some, Option.some.injEq, Prod.mk.injEq] at hsome
    obtain ⟨u0, ⟨hsz, _⟩, hh, hst'⟩ := hsome
    subst hh
    subst hst'
    rfl

/-- Witness for C4: presenting the concrete mid-frame state `exSt4` empties
the ephemeral list, leaves the frame, and removes buffer handle 1 from the
registry; a concrete ephemeral allocation appends its handle to the list. -/
theorem c4_witness :
    exSt4res.ephemeralBuffers = [] ∧ exSt4res.inFrame = false ∧
    exSt4res.buffers.get 1 = none ∧
    exStEres.2.ephemeralBuffers = baseState.ephemeralBuffers ++ [exStEres.1] := by
  have h1 := c4_presentFrame_releases_ephemeral_buffers.1 exSt4 1 exSt4res (by decide)
  have h2 := c4_presentFrame_releases_ephemeral_buffers.2 baseState 16 exStEres.1 exStEres.2 (by decide)
  exact ⟨h1.1, h1.2.1, h1.2.2 1 (by decide), h2⟩

/-- C3 — Corrected. `presentFrame(target)` requires the state machine to be
`InFrame` and requires the target render target to resolve and to already be
in `TransferSrc` layout; violating any of these is a guard (assertion-class)
failure, i.e. the modelled operation returns `none`.  But — the correction —
the source does NOT require "not `InRenderPass`": there is no assertion on
`inRenderPass`, so presenting with a render pass still open is not flagged
(see the counterexample). -/
theorem c3_presentFrame_guards (st : RState) (image : Nat) :
    (st.inFrame = false → presentFrame st image = none) ∧
    (st.renderTargets.get image = none → presentFrame st image = none) ∧
    (∀ rt, st.renderTargets.get image = some rt →
      rt.currentLayout ≠ Layout.TransferSrc → presentFrame st image = none) := by
  refine ⟨?_, ?_, ?_⟩
  · intro h
    simp [presentFrame, h, guard]
  · intro h
    by_cases hin : st.inFrame
    · simp [presentFrame, hin, h, guard]
    · simp [presentFrame, hin, guard]
  · intro rt hget hlay
    by_cases hin : st.inFrame
    · simp [presentFrame, hin, hget, hlay, guard]
    · simp [presentFrame, hin, guard]

/-- Witness for C3: each guard fires on a concrete state — out of frame, an
unknown render-target handle, and a target not yet in `TransferSrc`. -/
theorem c3_witness :
    presentFrame baseState 1 = none ∧
    presentFrame { baseState with inFrame := true } 1 = none ∧
    presentFrame exSt3bad 1 = none :=
  ⟨(c3_presentFrame_guards baseState 1).1 rfl,
   (c3_presentFrame_guards { baseState with inFrame := true } 1).2.1 rfl,
   (c3_presentFrame_guards exSt3bad 1).2.2 ⟨256, 256, Format.RGBA8, 7, Layout.ShaderRead, 9⟩
     (by decide) (by decide)⟩

/-- Counterexample refuting the "not `InRenderPass`" part of C3 as stated:
`exSt3` is inside a render pass, yet `presentFrame` succeeds — the source
asserts `inFrame` and the `TransferSrc` layout but never `!inRenderPass`, so
this violation is not an assertion-class failure. -/
theorem c3_counterexample :
    exSt3.inRenderPass = true ∧ (presentFrame exSt3 1).isSome = true := by
  decide

/-- C8 — Confirmed. A successful `bindPipeline` requires `pipelineDrawn`
(the previously bound pipeline has issued a draw) and clears it, so binding
twice in a row without an intervening draw is a guard failure — the third
conjunct of the first clause shows the immediate rebind returns `none` for
every handle.  `beginFrame` and each of `draw`, `drawIndexedInstanced` and
`drawIndexedOffset` set `pipelineDrawn` back to `true`, re-permitting
`bindPipeline`. -/
theorem c8_bindPipeline_requires_draw :
    (∀ st p st', bindPipeline st p = some st' →
      st.pipelineDrawn = true ∧ st'.pipelineDrawn = false ∧
      ∀ q, bindPipeline st' q = none) ∧
    (∀ st st', beginFrame st = some st' → st'.pipelineDrawn = true) ∧
    (∀ st a b st', draw st a b = some st' → st'.pipelineDrawn = true) ∧
    (∀ st a b st', drawIndexedInstanced st a b = some st' → st'.pipelineDrawn = true) ∧
    (∀ st a b st', drawIndexedOffset st a b = some st' → st'.pipelineDrawn = true) := by
  refine ⟨?_, ?_, ?_, ?_, ?_⟩
  · intro st p st' hsome
    simp only [bindPipeline, bind, Option.bind_eq_some, guard, failure, pure,
      Option.ite_none_right_eq_some, Option.some.injEq] at hsome
    obtain ⟨u1, ⟨h1, _⟩, u2, ⟨h2, _⟩, u3, ⟨h3, _⟩, u4, ⟨h4, _⟩, pp, hpp, u5, ⟨h5, _⟩, hst'⟩ := hsome
    subst hst'
    refine ⟨h4, rfl, ?_⟩
    intro q
    by_cases hq : q = 0
    · simp [bindPipeline, hq, guard, h1, h3]
    · simp [bindPipeline, hq, guard, h1, h3]
  · intro st st' hsome
    simp only [beginFrame, bind, Option.bind_eq_some, guard, failure, pure,
      Option.ite_none_right_eq_some, Option.some.injEq] at hsome
    obtain ⟨hin, ⟨h0, _⟩, hst'⟩ := hsome
    subst hst'
    rfl
  · intro st a b st' hsome
    simp only [draw, bind, Option.bind_eq_some, guard, failure, pure,
      Option.ite_none_right_eq_some, Option.some.injEq] at hsome
    obtain ⟨u1, ⟨h1, _⟩, u2, ⟨h2, _⟩, u3, ⟨h3, _⟩, u4, ⟨h4, _⟩, u5, ⟨h5, _⟩, hst'⟩ := hsome
    subst hst'
    rfl
  · intro st a b st' hsome
    simp only [drawIndexedInstanced, bind, Option.bind_eq_some, guard, failure, pure,
      Option.ite_none_right_eq_some, Option.some.injEq] at hsome
    obtain ⟨u1, ⟨h1, _⟩, u2, ⟨h2, _⟩, u3, ⟨h3, _⟩, u4, ⟨h4, _⟩, u5, ⟨h5, _⟩, u6, ⟨h6, _⟩, hst'⟩ := hsome
    subst hst'
    rfl
  · intro st a b st' hsome
    simp only [drawIndexedOffset, bind, Option.bind_eq_some, guard, failure, pure,
      Option.ite_none_right_eq_some, Option.some.injEq] at hsome
    obtain ⟨u1, ⟨h1, _⟩, u2, ⟨h2, _⟩, u3, ⟨h3, _⟩, u4, ⟨h4, _⟩, u5, ⟨h5, _⟩, hst'⟩ := hsome
    subst hst'
    rfl

/-- Witness for C8: binding in `exSt8` succeeds, clears `pipelineDrawn`, and
an immediate rebind fails; `beginFrame` and each draw call re-establish the
flag on concrete states. -/
theorem c8_witness :
    exSt8.pipelineDrawn = true ∧ exSt8res.pipelineDrawn = false ∧
    bindPipeline exSt8res 1 = none ∧
    ((beginFrame baseState).getD baseState).pipelineDrawn = true ∧
    ((draw exSt8d 0 3).getD baseState).pipelineDrawn = true ∧
    ((drawIndexedInstanced exSt8d 3 1).getD baseState).pipelineDrawn = true ∧
    ((drawIndexedOffset exSt8d 3 0).getD baseState).pipelineDrawn = true := by
  have h1 := c8_bindPipeline_requires_draw.1 exSt8 1 exSt8res (by decide)
  have h2 := c8_bindPipeline_requires_draw.2.1 baseState
    ((beginFrame baseState).getD baseState) (by decide)
  have h3 := c8_bindPipeline_requires_draw.2.2.1 exSt8d 0 3
    ((draw exSt8d 0 3).getD baseState) (by decide)
  have h4 := c8_bindPipeline_requires_draw.2.2.2.1 exSt8d 3 1
    ((drawIndexedInstanced exSt8d 3 1).getD baseState) (by decide)
  have h5 := c8_bindPipeline_requires_draw.2.2.2.2 exSt8d 3 0
    ((drawIndexedOffset exSt8d 3 0).getD baseState) (by decide)
  exact ⟨h1.1, h1.2.1, h1.2.2 1, h2, h3, h4, h5⟩

/-- C9 — Confirmed. `checkShaderResources` flags exactly the reflected
resources whose binding is at or beyond the declared set layout's size or
whose type differs from the layout entry at that binding: every such listed
resource is collected (first conjunct) and everything collected is such a
listed resource (second conjunct).  The flagging is not fatal: in the spec's
scenario — layout `{UniformBuffer@0, Texture@1}` against a shader `Sampler`
at set 0 binding 1 — `createPipeline` still returns a new pipeline handle,
with the mismatch collected (third conjunct). -/
theorem c9_shader_resource_mismatch_flagged_not_fatal :
    (∀ resources layouts errs, checkShaderResources resources layouts = some errs →
      ∀ r ∈ resources,
        (r.binding ≥ (layouts.getD r.set []).length ∨
         ((layouts.getD r.set []).getD r.binding default).type ≠ r.type) →
        r ∈ errs) ∧
    (∀ resources layouts errs, checkShaderResources resources layouts = some errs →
      ∀ e ∈ errs, e ∈ resources ∧
        (e.binding ≥ (layouts.getD e.set []).length ∨
         ((layouts.getD e.set []).getD e.binding default).type ≠ e.type)) ∧
    (createPipeline exSt9 exDesc9).map (fun r => (r.1, r.2.1))
      = some (1, [⟨0, 1, DescriptorType.Sampler⟩]) := by
  refine ⟨?_, ?_, ?_⟩
  · intro resources
    induction resources with
    | nil =>
      intro layouts errs h r hr
      exact absurd hr (List.not_mem_nil _)
    | cons r0 rest ih =>
      intro layouts errs h r hr hcond
      simp only [checkShaderResources, bind, Option.bind_eq_some, guard, failure, pure,
        Option.ite_none_right_eq_some] at h
      obtain ⟨u, ⟨hset, _⟩, errs0, herrs0, hrest⟩ := h
      rcases List.mem_cons.mp hr with rfl | hr2
      · by_cases hb : r.binding ≥ (layouts.getD r.set []).length
        · rw [if_pos hb] at hrest
          cases hrest
          exact List.mem_cons_self _ _
        · have ht : ((layouts.getD r.set []).getD r.binding default).type ≠ r.type := by
            rcases hcond with hc | hc
            · exact absurd hc hb
            · exact hc
          rw [if_neg hb, if_pos ht] at hrest
          cases hrest
          exact List.mem_cons_self _ _
      · have hmem0 : r ∈ errs0 := ih layouts errs0 herrs0 r hr2 hcond
        split_ifs at hrest <;> cases hrest
        · exact List.mem_cons_of_mem _ hmem0
        · exact List.mem_cons_of_mem _ hmem0
        · exact hmem0
  · intro resources
    induction resources with
    | nil =>
      intro layouts errs h e he
      simp only [checkShaderResources] at h
      cases h
      exact absurd he (List.not_mem_nil _)
    | cons r0 rest ih =>
      intro layouts errs h e he
      simp only [checkShaderResources, bind, Option.bind_eq_some, guard, failure, pure,
        Option.ite_none_right_eq_some] at h
      obtain ⟨u, ⟨hset, _⟩, errs0, herrs0, hrest⟩ := h
      by_cases hb : r0.binding ≥ (layouts.getD r0.set []).length
      · rw [if_pos hb] at hrest
        cases hrest
        rcases List.mem_cons.mp he with rfl | he2
        · exact ⟨List.mem_cons_self _ _, Or.inl hb⟩
        · obtain ⟨hmem, hc⟩ := ih layouts errs0 herrs0 e he2
          exact ⟨List.mem_cons_of_mem _ hmem, hc⟩
      · rw [if_neg hb] at hrest
        by_cases ht : ((layouts.getD r0.set []).getD r0.binding default).type ≠ r0.type
        · rw [if_pos ht] at hrest
          cases hrest
          rcases List.mem_cons.mp he with rfl | he2
          · exact ⟨List.mem_cons_self _ _, Or.inr ht⟩
          · obtain ⟨hmem, hc⟩ := ih layouts errs0 herrs0 e he2
            exact ⟨List.mem_cons_of_mem _ hmem, hc⟩
        · rw [if_neg ht] at hrest
          cases hrest
          obtain ⟨hmem, hc⟩ := ih layouts _ herrs0 e he
          exact ⟨List.mem_cons_of_mem _ hmem, hc⟩
  · decide

/-- Witness for C9: in the spec's scenario the `Sampler` at set 0 binding 1
is flagged, and it is one of the listed resources. -/
theorem c9_witness :
    (⟨0, 1, DescriptorType.Sampler⟩ : ShaderResource) ∈ exErrs9 ∧
    (⟨0, 1, DescriptorType.Sampler⟩ : ShaderResource) ∈ exRes9 := by
  have ha := c9_shader_resource_mismatch_flagged_not_fatal.1 exRes9 exLayouts9 exErrs9
    (by decide) ⟨0, 1, DescriptorType.Sampler⟩ (by decide) (by decide)
  have hb := (c9_shader_resource_mismatch_flagged_not_fatal.2.1 exRes9 exLayouts9 exErrs9
    (by decide) ⟨0, 1, DescriptorType.Sampler⟩ ha).1
  exact ⟨ha, hb⟩

/-- C10 — Confirmed. `deleteBuffer`'s cleanup asserts the buffer is not a
ring-buffer sub-allocation, so it may only be applied to standalone buffers:
on any handle resolving to a record with `ringBufferAlloc` set it is a guard
(assertion) violation (first conjunct), and in particular calling it on a
handle just returned by `createEphemeralBuffer` — before `presentFrame` has
released it — fails (second conjunct); ephemeral buffers are released
exclusively by `presentFrame`'s release loop. -/
theorem c10_deleteBuffer_rejects_ephemeral :
    (∀ st h b, st.buffers.get h = some b → b.ringBufferAlloc = true →
      deleteBuffer st h = none) ∧
    (∀ st size h st', createEphemeralBuffer st size = some (h, st') →
      deleteBuffer st' h = none) := by
  have part1 : ∀ st h b, st.buffers.get h = some b → b.ringBufferAlloc = true →
      deleteBuffer st h = none := by
    intro st h b hget hring
    by_cases h0 : b.buffer = 0
    · simp [deleteBuffer, hget, h0, guard]
    · by_cases hs : b.size = 0
      · simp [deleteBuffer, hget, h0, hs, guard]
      · simp [deleteBuffer, hget, h0, hs, hring, guard]
  refine ⟨part1, ?_⟩
  intro st size h st' hsome
  simp only [createEphemeralBuffer, bind, Option.bind_eq_some, guard, failure, pure,
    Option.ite_none_right_eq_some, Option.some.injEq, Prod.mk.injEq] at hsome
  obtain ⟨u0, ⟨hsz, _⟩, hh, hst'⟩ := hsome
  subst hh
  subst hst'
  exact part1 _ _ _ (Registry.get_add _ _) rfl

/-- Witness for C10: deleting the freshly created ephemeral buffer of
`exStEres` fails, as does deleting the outstanding ephemeral handle 1 of
`exSt4`. -/
theorem c10_witness :
    deleteBuffer exStEres.2 exStEres.1 = none ∧ deleteBuffer exSt4 1 = none := by
  have h1 := c10_deleteBuffer_rejects_ephemeral.2 baseState 16 exStEres.1 exStEres.2 (by decide)
  have h2 := c10_deleteBuffer_rejects_ephemeral.1 exSt4 1 ⟨1, true, 0, 16⟩ (by decide) rfl
  exact ⟨h1, h2⟩

end renderer





